import Mathlib

/-!
Verification of the TTP constructive-method generator (`ttpgen`).

This file gives a shallow embedding, in Lean 4, of the schedule data model
and of the core operations of `src/solution.rs`:

* `generate_florian_solution` — the circular ("Florian") double round-robin
  schedule constructor;
* `check_constraints` — capacity / separation / round-robin checking
  (embedded as an `Option`-valued function, `none` marking the inputs on
  which the original code would panic from an out-of-range access or an
  unsigned-subtraction underflow);
* `evaluate_objective` — the travel-simulation objective;
* `generate_random_permutations` — the permutation sampler (embedded with
  an explicit fuel and an abstract shuffle oracle standing for the seeded
  RNG, since the original `while` loop is not structurally terminating).

Machine-integer casts that matter (`i32` values cast with `as usize`) are
modelled explicitly by `usizeOfI32`.  Theorems about the claims of the
specification follow the definitions.
-/

set_option maxHeartbeats 1000000

namespace TTP

/-- Rust's `x as usize` applied to a (signed) integer value: reduction
modulo `2^64`, then read as a natural number. -/
def usizeOfI32 (x : Int) : Nat := (x % (2 ^ 64 : Int)).toNat

/-- One cell of a schedule: home/away flag and opponent id.
Source: `struct Game` in `solution.rs`. -/
structure Game where
  home_game : Bool
  opponent : Int
deriving DecidableEq, Repr

/-- The placeholder `Game { home_game: false, opponent: -1 }` used by
`Solution::new` to mean "no opponent assigned yet". -/
def placeholderGame : Game := { home_game := false, opponent := -1 }

/-- A candidate schedule: `solution[slot][team]` is that team's game in
that slot.  Source: `struct Solution` in `solution.rs`. -/
structure Solution where
  id : Int
  solution : List (List Game)
deriving DecidableEq, Repr

/-- A team of the instance.  Source: `struct Team` in `data_set.rs`. -/
structure Team where
  id : Int
  league : Int
  name : String
  team_groups : Int
deriving DecidableEq, Repr

/-- A round of the tournament.  Source: `struct Slot` in `data_set.rs`. -/
structure Slot where
  id : Int
  name : String
deriving DecidableEq, Repr

/-- A pairwise travel distance.  Source: `struct Distance` in `data_set.rs`. -/
structure Distance where
  dist : Int
  team1 : Int
  team2 : Int
deriving DecidableEq, Repr

/-- A capacity constraint.  Source: `struct CapacityConstraints` in
`data_set.rs`. -/
structure CapacityConstraints where
  c_intp : Int
  c_max : Int
  c_min : Int
  c_mode1 : Char
  c_mode2 : String
  c_penalty : Int
  c_team_groups1 : Int
  c_team_groups2 : Int
  c_type : String
deriving DecidableEq, Repr

/-- A separation constraint.  Source: `struct SeparationConstraints` in
`data_set.rs`. -/
structure SeparationConstraints where
  c_max : Int
  c_min : Int
  c_penalty : Int
  c_team_groups : Int
  c_type : String
deriving DecidableEq, Repr

/-- The parsed instance.  Source: `struct Rawdata` in `data_set.rs`. -/
structure Rawdata where
  instance_name : String
  teams : List Team
  slots : List Slot
  distances : List Distance
  capacity_constraints : List CapacityConstraints
  separation_constraints : List SeparationConstraints
deriving DecidableEq, Repr

/-- `Solution::new`: a `slots × teams` matrix filled with placeholder games,
id `-1`.  Source: `Solution::new` in `solution.rs`. -/
def Solution.new (data : Rawdata) : Solution :=
  { id := -1
    solution :=
      List.replicate data.slots.length (List.replicate data.teams.length placeholderGame) }

/-- Read the game of `team` at `slot` (with the placeholder as the
out-of-range default); `solution_matrix.solution[slot][team]` as a total
function. -/
def schedGame (solution_matrix : Solution) (slot team : Nat) : Game :=
  (solution_matrix.solution.getD slot []).getD team placeholderGame

/-- The assignment `matrix[r][t] = g` on a list-of-lists matrix. -/
def writeGame (matrix : List (List Game)) (r t : Nat) (g : Game) : List (List Game) :=
  matrix.set r ((matrix.getD r []).set t g)

/-- One step of `Vec::rotate_right(1)`: the last element moves to the
front. -/
def rotr1 (l : List Nat) : List Nat :=
  match l.reverse with
  | [] => []
  | x :: rest => x :: rest.reverse

/-- The end-of-round list operation of the constructor:
`let f = teams.remove(teams.len()-1); teams.rotate_right(1); teams.push(f)`. -/
def roundRotate (l : List Nat) : List Nat :=
  match l.reverse with
  | [] => []
  | x :: rest => rotr1 rest.reverse ++ [x]

/-- `teams.remove(i)` followed by `teams.push(<removed>)`: move the element
at index `i` to the back of the list. -/
def moveToEnd (l : List Nat) (i : Nat) : List Nat :=
  l.eraseIdx i ++ [l.getD i 0]

/-- The inner pairing loop of one round of the constructor: for
`i in 0..numTeams/2` pair the team at position `i` with the team at
position `numTeams-1-i` and record both games symmetrically.
Source: the body of the `round` loop of `generate_florian_solution`. -/
def florianRoundWrites (numTeams : Nat) (upward : Bool) (teams : List Nat)
    (round : Nat) (matrix : List (List Game)) : List (List Game) :=
  (List.range (numTeams / 2)).foldl
    (fun mat i =>
      let team_a := teams.getD i 0
      let team_b := teams.getD (numTeams - 1 - i) 0
      let home_first := ((round % 2 == 0) == upward)
      if home_first then
        writeGame (writeGame mat round team_a { home_game := true, opponent := (team_b : Int) })
          round team_b { home_game := false, opponent := (team_a : Int) }
      else
        writeGame (writeGame mat round team_a { home_game := false, opponent := (team_b : Int) })
          round team_b { home_game := true, opponent := (team_a : Int) })
    matrix

/-- One full round of the constructor: write the pairings of this round,
then rotate the working list (anchor kept at the tail). -/
def florianStep (numTeams : Nat) (upward : Bool)
    (st : List (List Game) × List Nat) (round : Nat) : List (List Game) × List Nat :=
  (florianRoundWrites numTeams upward st.2 round st.1, roundRotate st.2)

/-- `generate_florian_solution` from `solution.rs`: build the full double
round-robin schedule with the team at index `fixed_team` as the anchor and
the `upward` home/away pattern. -/
def generate_florian_solution (data : Rawdata) (fixed_team : Nat) (upward : Bool) : Solution :=
  let solution_matrix := Solution.new data
  let teams : List Nat := data.teams.map (fun team => usizeOfI32 team.id)
  let teams := moveToEnd teams fixed_team
  let final :=
    (List.range (2 * (data.teams.length - 1))).foldl
      (florianStep data.teams.length upward) (solution_matrix.solution, teams)
  { id := solution_matrix.id, solution := final.1 }

/-- `evaluate_objective` from `solution.rs`: travel simulation.  For each
team the current location starts at the team's own venue; each slot moves
it to its own venue (home game) or to the opponent's (away game), adding
the matrix distance of the move. -/
def evaluate_objective (traveling_distance_matrix : List (List Int))
    (solution_matrix : Solution) : Int :=
  let num_slots := solution_matrix.solution.length
  let num_teams := (solution_matrix.solution.getD 0 []).length
  (List.range num_teams).foldl
    (fun total_distance team =>
      ((List.range num_slots).foldl
          (fun (st : Int × Nat) slot =>
            let game := (solution_matrix.solution.getD slot []).getD team placeholderGame
            let next_location := if game.home_game then team else usizeOfI32 game.opponent
            (st.1 + (traveling_distance_matrix.getD st.2 []).getD next_location 0,
              next_location))
          (total_distance, team)).1)
    0

/-- The location a team moves to for one game: its own venue for a home
game, the opponent's venue otherwise. -/
def nextLocation (team : Nat) (game : Game) : Nat :=
  if game.home_game then team else usizeOfI32 game.opponent

/-- The sequence of venues a team visits over the schedule, one per slot,
in slot order. -/
def teamItinerary (sched : List (List Game)) (team : Nat) : List Nat :=
  sched.map (fun row => nextLocation team (row.getD team placeholderGame))

/-- Total cost of walking a venue sequence starting from `cur`, adding the
matrix distance of every move. -/
def pathCost (matrix : List (List Int)) : Nat → List Nat → Int
  | _, [] => 0
  | cur, x :: xs => (matrix.getD cur []).getD x 0 + pathCost matrix x xs

/-- The travel-simulation total as the specification words it: for each
team, sum the matrix distances along its itinerary starting from its own
venue; then sum over all teams. -/
def travelSimulationSpec (matrix : List (List Int)) (sched : List (List Game)) : Int :=
  (((List.range (sched.getD 0 []).length).map
    (fun team => pathCost matrix team (teamItinerary sched team)))).sum

/-- The capacity-constraint mode test of `check_constraints`: mode `'A'`
selects home games, mode `'H'` selects away games, anything else selects no
game.  Source: the `match constraint.c_mode1` in `solution.rs`. -/
def modeMatches (mode : Char) (game : Game) : Bool :=
  match mode with
  | 'A' => game.home_game
  | 'H' => !game.home_game
  | _ => false

/-- The window count of the capacity check: over the `len` slots starting
at `start`, count the games of `team` matching `mode`.  `none` when a row
access `slot[team]` would be out of range (a Rust panic). -/
def windowCount (sol : List (List Game)) (team : Nat) (mode : Char)
    (start len : Nat) : Option Nat :=
  (List.range len).foldlM
    (fun cnt j => do
      let row ← sol[start + j]?
      let game ← row[team]?
      pure (cnt + if modeMatches mode game then 1 else 0))
    0

/-- The capacity part of `check_constraints`: for each constraint, team and
sliding window of `c_intp` slots, count one violation per window whose mode
count falls outside the (usize-cast) `[c_min, c_max]`.  `none` models the
panic from the underflowing `num_slots - c_intp as usize` (when the cast
interval exceeds the slot count) or from an out-of-range cell access. -/
def capacityViolations (constraints : List CapacityConstraints)
    (sol : List (List Game)) (num_teams : Nat) : Option Int :=
  let num_slots := sol.length
  constraints.foldlM
    (fun acc constraint =>
      (List.range num_teams).foldlM
        (fun acc2 team =>
          let intp := usizeOfI32 constraint.c_intp
          if intp ≤ num_slots then
            (List.range (num_slots - intp + 1)).foldlM
              (fun acc3 start_slot => do
                let count ← windowCount sol team constraint.c_mode1 start_slot intp
                pure
                  (if count < usizeOfI32 constraint.c_min ∨
                      count > usizeOfI32 constraint.c_max then
                    acc3 + 1
                  else acc3))
              acc2
          else none)
        acc)
    0

/-- The separation part of `check_constraints`: for each constraint and
team, fold over the slots keeping the last slot the team met each opponent
(`last_slot_vs`); a repeated meeting at gap `slot - last` counts a
violation when `gap <= c_min as usize` or `gap > c_max as usize`.  `none`
models the panics from out-of-range cell or `last_slot_vs[opponent]`
accesses. -/
def separationViolations (constraints : List SeparationConstraints)
    (sol : List (List Game)) (num_teams : Nat) : Option Int :=
  let num_slots := sol.length
  constraints.foldlM
    (fun acc constraint =>
      (List.range num_teams).foldlM
        (fun acc2 team => do
          let st ←
            (List.range num_slots).foldlM
              (fun (st : Int × List (Option Nat)) slot => do
                let row ← sol[slot]?
                let game ← row[team]?
                let opponent := usizeOfI32 game.opponent
                let lastv ← st.2[opponent]?
                let acc3 :=
                  match lastv with
                  | some last =>
                    let distance := slot - last
                    if distance ≤ usizeOfI32 constraint.c_min ∨
                        distance > usizeOfI32 constraint.c_max then
                      st.1 + 1
                    else st.1
                  | none => st.1
                pure (acc3, st.2.set opponent (some slot)))
              (acc2, List.replicate num_teams (none : Option Nat))
          pure st.1)
        acc)
    0

/-- The unordered-pair key of the round-robin count: the `(min, max)` pair
of the two team indices, as built by `check_constraints`. -/
def rrKey (home_team away : Nat) : Nat × Nat :=
  if home_team < away then (home_team, away) else (away, home_team)

/-- The round-robin part of `check_constraints`: gather, over every slot
and team, the unordered key of the team and its listed opponent (the
multiset of `HashMap` increments), and report `true` exactly when no key
occurs more than 4 times.  `none` models an out-of-range cell access. -/
def roundRobinRespect (sol : List (List Game)) (num_teams : Nat) : Option Bool := do
  let keys ←
    (List.range sol.length).foldlM
      (fun ks slot =>
        (List.range num_teams).foldlM
          (fun ks2 home_team => do
            let row ← sol[slot]?
            let game ← row[home_team]?
            pure (rrKey home_team (usizeOfI32 game.opponent) :: ks2))
          ks)
      ([] : List (Nat × Nat))
  pure (keys.all (fun k => keys.count k ≤ 4))

/-- `check_constraints` from `solution.rs`, with `none` standing for the
panics the original can raise (empty schedule, out-of-range accesses,
underflow of `num_slots - c_intp as usize`). -/
def check_constraints (data : Rawdata) (solution_matrix : Solution) :
    Option (Int × Int × Bool) := do
  let row0 ← solution_matrix.solution[0]?
  let num_teams := row0.length
  let capacity_constraints ←
    capacityViolations data.capacity_constraints solution_matrix.solution num_teams
  let separation_constraints ←
    separationViolations data.separation_constraints solution_matrix.solution num_teams
  let round_robin_respect ← roundRobinRespect solution_matrix.solution num_teams
  pure (capacity_constraints, separation_constraints, round_robin_respect)

/-- `HashSet::insert` on the model of a hash set as a duplicate-free list:
add the element when it is not already present. -/
def hsInsert (acc : List (List Int)) (perm : List Int) : List (List Int) :=
  if perm ∈ acc then acc else perm :: acc

/-- The retry loop of `generate_random_permutations`, with the seeded RNG
abstracted into the oracle `shuffles` (the `n`-th in-place shuffle result)
and an explicit `fuel` bounding the number of iterations of the original
unbounded `while permutations.len() < number_permutations` loop; `none`
means the loop is still running after `fuel` iterations. -/
def permutationLoop (target : Nat) (shuffles : Nat → List Int) :
    Nat → Nat → List (List Int) → Option (List (List Int))
  | 0, _, acc => if acc.length < target then none else some acc
  | fuel + 1, step, acc =>
    if acc.length < target then
      permutationLoop target shuffles fuel (step + 1) (hsInsert acc (shuffles step))
    else some acc

/-- `generate_random_permutations` from `solution.rs` (the in-memory part:
the optional save to disk is outside the model): collect the team ids and
run the retry loop until `number_permutations as usize` distinct
permutations are gathered.  The function performs no validation of
`number_permutations` against the number of existing permutations. -/
def generate_random_permutations (data : Rawdata) (number_permutations : Int)
    (shuffles : Nat → List Int) (fuel : Nat) : Option (List (List Int)) :=
  permutationLoop (usizeOfI32 number_permutations) shuffles fuel 0 []

/-- The window count as a pure function: among the `len` slots starting at
`start`, the number of games of `team` matching `mode`. -/
def windowCountSpec (sol : List (List Game)) (team : Nat) (mode : Char)
    (start len : Nat) : Nat :=
  (List.range len).countP
    (fun j => modeMatches mode ((sol.getD (start + j) []).getD team placeholderGame))

/-- Violation test of one capacity window as the code performs it, with the
`i32` bounds cast to `usize`. -/
def capWindowViolCode (c : CapacityConstraints) (sol : List (List Game))
    (team start : Nat) : Bool :=
  decide (windowCountSpec sol team c.c_mode1 start (usizeOfI32 c.c_intp) < usizeOfI32 c.c_min ∨
    windowCountSpec sol team c.c_mode1 start (usizeOfI32 c.c_intp) > usizeOfI32 c.c_max)

/-- Per-constraint, per-team number of violating capacity windows, as the
code counts them. -/
def capViolWindowsCode (c : CapacityConstraints) (sol : List (List Game)) (team : Nat) : Nat :=
  (List.range (sol.length - usizeOfI32 c.c_intp + 1)).countP (capWindowViolCode c sol team)

/-- The total capacity-violation count of the code, as a pure value. -/
def capCodeVal (constraints : List CapacityConstraints) (sol : List (List Game))
    (num_teams : Nat) : Int :=
  (constraints.map (fun c =>
    ((List.range num_teams).map (fun team => (capViolWindowsCode c sol team : Int))).sum)).sum

/-- The capacity-violation count as the specification words it: one
violation per constraint, team and window fully inside the schedule whose
mode count falls outside `[c_min, c_max]`, the bounds read as (signed)
integers. -/
def capacitySpecCount (constraints : List CapacityConstraints) (sol : List (List Game))
    (num_teams : Nat) : Int :=
  (constraints.map (fun c =>
    ((List.range num_teams).map (fun team =>
      (((List.range (sol.length + 1)).countP (fun start =>
        decide (start + c.c_intp.toNat ≤ sol.length ∧
          ¬(c.c_min ≤ (windowCountSpec sol team c.c_mode1 start c.c_intp.toNat : Int) ∧
            (windowCountSpec sol team c.c_mode1 start c.c_intp.toNat : Int) ≤ c.c_max)))) : Int))).sum)).sum

/-- Slots among the first `s` at which the row of `team` lists `opp`
(after the `as usize` cast) as its opponent, in increasing order. -/
def meetingsUpTo (sol : List (List Game)) (team opp s : Nat) : List Nat :=
  (List.range s).filter
    (fun slot =>
      usizeOfI32 ((sol.getD slot []).getD team placeholderGame).opponent == opp)

/-- All slots at which `team` meets `opp`, in increasing order. -/
def meetingSlots (sol : List (List Game)) (team opp : Nat) : List Nat :=
  meetingsUpTo sol team opp sol.length

/-- Number of consecutive pairs of a (sorted) meeting-slot list whose gap
violates the predicate `viol`. -/
def consecViol (viol : Nat → Bool) : List Nat → Nat
  | a :: b :: rest => (if viol (b - a) then 1 else 0) + consecViol viol (b :: rest)
  | _ => 0

/-- The gap test of the code: `distance <= c_min as usize || distance >
c_max as usize`. -/
def gapViolCode (c : SeparationConstraints) (gap : Nat) : Bool :=
  decide (gap ≤ usizeOfI32 c.c_min ∨ gap > usizeOfI32 c.c_max)

/-- The gap test of the specification: `gap <= c_min` or `gap > c_max`,
over the integers. -/
def gapViolSpec (c : SeparationConstraints) (gap : Nat) : Bool :=
  decide ((gap : Int) ≤ c.c_min ∨ (gap : Int) > c.c_max)

/-- The total separation-violation count of the code, as a pure value:
one violation per constraint, team and consecutive pair of meetings with
the same opponent whose gap fails the (usize-cast) bound test. -/
def sepCodeVal (constraints : List SeparationConstraints) (sol : List (List Game))
    (num_teams : Nat) : Int :=
  (constraints.map (fun c =>
    ((List.range num_teams).map (fun team =>
      ((List.range num_teams).map (fun opp =>
        (consecViol (gapViolCode c) (meetingSlots sol team opp) : Int))).sum)).sum)).sum

/-- The separation-violation count as the specification words it: for each
constraint, team and opponent, one violation per repeated meeting whose
gap from the previous meeting is `<= c_min` or `> c_max` over the
integers; a first meeting is never counted. -/
def separationSpecCount (constraints : List SeparationConstraints)
    (sol : List (List Game)) (num_teams : Nat) : Int :=
  (constraints.map (fun c =>
    ((List.range num_teams).map (fun team =>
      ((List.range num_teams).map (fun opp =>
        (consecViol (gapViolSpec c) (meetingSlots sol team opp) : Int))).sum)).sum)).sum

/-- The pure step of the separation fold for one constraint and one team:
read the opponent of the slot, count a violation against the last meeting
if one is recorded, and record this slot as the last meeting. -/
def sepStep (c : SeparationConstraints) (sol : List (List Game)) (team : Nat)
    (st : Int × List (Option Nat)) (slot : Nat) : Int × List (Option Nat) :=
  let opponent := usizeOfI32 ((sol.getD slot []).getD team placeholderGame).opponent
  (match st.2.getD opponent none with
    | some last =>
      if slot - last ≤ usizeOfI32 c.c_min ∨ slot - last > usizeOfI32 c.c_max then
        st.1 + 1
      else st.1
    | none => st.1,
    st.2.set opponent (some slot))

/-- The keys of one slot of the round-robin count, one per team. -/
def rrRowKeys (sol : List (List Game)) (num_teams slot : Nat) : List (Nat × Nat) :=
  (List.range num_teams).map (fun home_team =>
    rrKey home_team
      (usizeOfI32 ((sol.getD slot []).getD home_team placeholderGame).opponent))

/-- The multiset of unordered keys the round-robin `HashMap` counts: one
entry per slot and team, keying the team with its (usize-cast) listed
opponent. -/
def rrEntries (sol : List (List Game)) (num_teams : Nat) : List (Nat × Nat) :=
  ((List.range sol.length).map (rrRowKeys sol num_teams)).flatten

/-- Number of slots at which teams `a` and `b` meet: either team's row
lists the other as its opponent. -/
def pairMeetCount (sol : List (List Game)) (a b : Nat) : Nat :=
  (List.range sol.length).countP (fun s =>
    (((sol.getD s []).getD a placeholderGame).opponent == (b : Int)) ||
    (((sol.getD s []).getD b placeholderGame).opponent == (a : Int)))

/-- The working list of the constructor at the start of round `r`: the
non-anchor part rotated right `r` times, the anchor at the tail. -/
def teamsAt (lrot : List Nat) (f r : Nat) : List Nat := (rotr1^[r] lrot) ++ [f]

/-- The schedule matrix built by the constructor from a list of (usize)
team ids, the slot count, the anchor index and the direction flag. -/
def florianSched (ids : List Nat) (numSlots : Nat) (fixed_team : Nat) (upward : Bool) :
    List (List Game) :=
  ((List.range (2 * (ids.length - 1))).foldl (florianStep ids.length upward)
    (List.replicate numSlots (List.replicate ids.length placeholderGame),
      moveToEnd ids fixed_team)).1

/-- One pairing write of the constructor in normal form: the position-`i`
team gets the `home_first` bit, its partner at position `numTeams-1-i` the
negation, each recording the other as opponent. -/
def florianPairWrite (numTeams : Nat) (upward : Bool) (teams : List Nat) (round : Nat)
    (mat : List (List Game)) (i : Nat) : List (List Game) :=
  writeGame
    (writeGame mat round (teams.getD i 0)
      { home_game := ((round % 2 == 0) == upward),
        opponent := (teams.getD (numTeams - 1 - i) 0 : Int) })
    round (teams.getD (numTeams - 1 - i) 0)
    { home_game := !((round % 2 == 0) == upward),
      opponent := (teams.getD i 0 : Int) }

/-- The closed form of one constructed cell: at round `s`, the team at
position `p` of the working list plays the team at position `N-1-p`; it is
home iff `p` is in the front half, with the parity/direction bit of the
round. -/
def florianCell (lrot : List Nat) (f : Nat) (upward : Bool) (N s p : Nat) : Game :=
  { home_game := if p < N / 2 then ((s % 2 == 0) == upward) else !((s % 2 == 0) == upward)
    opponent := ((teamsAt lrot f s).getD (N - 1 - p) 0 : Int) }

/-- A minimal synthetic team (only the id matters to the generator). -/
def teamOfId (i : Int) : Team :=
  { id := i, league := 0, name := "T", team_groups := 0 }

/-- A minimal synthetic slot. -/
def slotOfId (i : Int) : Slot :=
  { id := i, name := "S" }

/-- A synthetic instance with `numTeams` teams of ids `0..numTeams-1`,
`numSlots` slots and no distances or constraints, used to instantiate the
theorems on concrete inputs. -/
def sampleData (numTeams numSlots : Nat) : Rawdata :=
  { instance_name := "sample"
    teams := (List.range numTeams).map (fun i => teamOfId i)
    slots := (List.range numSlots).map (fun i => slotOfId i)
    distances := []
    capacity_constraints := []
    separation_constraints := [] }

/-! ### General list lemmas -/

theorem foldl_add_sum {α : Type} (g : α → Int) :
    ∀ (l : List α) (a : Int), l.foldl (fun acc x => acc + g x) a = a + (l.map g).sum := by
  intro l
  induction l with
  | nil => intro a; simp
  | cons x xs ih => intro a; simp [ih, add_assoc]

theorem getD_of_lt {α : Type} (l : List α) (i : Nat) (d : α) (h : i < l.length) :
    l.getD i d = l[i] := by
  rw [List.getD_eq_getElem?_getD, List.getElem?_eq_getElem h]
  rfl

theorem optBind_some {α β : Type} (a : α) (f : α → Option β) : (some a >>= f) = f a := rfl

theorem foldlM_eq_foldl_some {α β : Type} (f : β → α → Option β) (g : β → α → β)
    (I : β → Prop) :
    ∀ l : List α, (∀ b a, I b → a ∈ l → f b a = some (g b a) ∧ I (g b a)) →
      ∀ init, I init → l.foldlM (m := Option) f init = some (l.foldl g init) := by
  intro l
  induction l with
  | nil => intro _ init _; rfl
  | cons a as ih =>
    intro hstep init hI
    have h := hstep init a hI (by simp)
    rw [List.foldlM_cons, h.1]
    show List.foldlM (m := Option) f (g init a) as = _
    rw [List.foldl_cons]
    exact ih (fun b x hb hx => hstep b x hb (by simp [hx])) _ h.2

theorem foldl_add_count_nat {α : Type} (p : α → Bool) :
    ∀ (l : List α) (n : Nat),
      l.foldl (fun c x => c + if p x then 1 else 0) n = n + l.countP p := by
  intro l
  induction l with
  | nil => intro n; simp
  | cons x xs ih =>
    intro n
    rw [List.foldl_cons, ih, List.countP_cons]
    by_cases h : p x <;> simp [h] <;> omega

theorem foldl_ite_succ_int {α : Type} (P : α → Prop) [DecidablePred P] :
    ∀ (l : List α) (n : Int),
      l.foldl (fun c x => if P x then c + 1 else c) n =
        n + (l.countP (fun x => decide (P x)) : Int) := by
  intro l
  induction l with
  | nil => intro n; simp
  | cons x xs ih =>
    intro n
    rw [List.foldl_cons, List.countP_cons]
    by_cases h : P x
    · rw [if_pos h, ih, decide_eq_true h]
      simp
      push_cast
      ring
    · rw [if_neg h, ih, decide_eq_false h]
      simp

theorem countP_ext {α : Type} (p q : α → Bool) :
    ∀ l : List α, (∀ x ∈ l, p x = q x) → l.countP p = l.countP q := by
  intro l
  induction l with
  | nil => intro _; rfl
  | cons x xs ih =>
    intro h
    rw [List.countP_cons, List.countP_cons, h x (by simp),
      ih (fun y hy => h y (by simp [hy]))]

theorem usizeOfI32_eq_toNat (x : Int) (h0 : 0 ≤ x) (h1 : x < 2 ^ 64) :
    usizeOfI32 x = x.toNat := by
  unfold usizeOfI32
  rw [Int.emod_eq_of_lt h0 (by exact_mod_cast h1)]

theorem usizeOfI32_ofNat (n : Nat) (h : n < 2 ^ 64) : usizeOfI32 (n : Int) = n := by
  rw [usizeOfI32_eq_toNat _ (by positivity) (by exact_mod_cast h)]
  simp

/-! ### The capacity checker -/

theorem windowCount_eq (sol : List (List Game)) (team : Nat) (mode : Char)
    (start len : Nat) (hrows : ∀ row ∈ sol, team < row.length)
    (hwin : start + len ≤ sol.length) :
    windowCount sol team mode start len =
      some (windowCountSpec sol team mode start len) := by
  unfold windowCount windowCountSpec
  rw [foldlM_eq_foldl_some _
    (fun cnt j =>
      cnt + if modeMatches mode ((sol.getD (start + j) []).getD team placeholderGame)
        then 1 else 0)
    (fun _ => True) _ ?hstep 0 trivial]
  · rw [foldl_add_count_nat]
    simp
  case hstep =>
    intro b j _ hj
    refine ⟨?eq, trivial⟩
    have hj' : start + j < sol.length := by
      have := List.mem_range.mp hj
      omega
    have hteam : team < sol[start + j].length := hrows _ (List.getElem_mem hj')
    have h1 : sol[start + j]? = some sol[start + j] := List.getElem?_eq_getElem hj'
    have h2 : sol[start + j][team]? = some sol[start + j][team] :=
      List.getElem?_eq_getElem hteam
    simp only [h1, optBind_some, h2]
    rw [getD_of_lt _ _ _ hj', getD_of_lt _ _ _ hteam]
    rfl

theorem capacityViolations_eq_code (constraints : List CapacityConstraints)
    (sol : List (List Game)) (num_teams : Nat)
    (hrows : ∀ row ∈ sol, row.length = num_teams)
    (hintp : ∀ c ∈ constraints, usizeOfI32 c.c_intp ≤ sol.length) :
    capacityViolations constraints sol num_teams =
      some (capCodeVal constraints sol num_teams) := by
  unfold capacityViolations capCodeVal
  rw [foldlM_eq_foldl_some _
    (fun acc c =>
      acc + ((List.range num_teams).map
        (fun team => (capViolWindowsCode c sol team : Int))).sum)
    (fun _ => True) _ ?hc 0 trivial]
  · rw [foldl_add_sum]
    simp
  case hc =>
    intro acc c _ hcmem
    refine ⟨?eqc, trivial⟩
    rw [foldlM_eq_foldl_some _
      (fun acc2 team => acc2 + (capViolWindowsCode c sol team : Int))
      (fun _ => True) _ ?ht acc trivial]
    · rw [foldl_add_sum]
    case ht =>
      intro acc2 team _ htmem
      refine ⟨?eqt, trivial⟩
      rw [if_pos (hintp c hcmem)]
      rw [foldlM_eq_foldl_some _
        (fun acc3 start_slot =>
          if windowCountSpec sol team c.c_mode1 start_slot (usizeOfI32 c.c_intp) <
                usizeOfI32 c.c_min ∨
              windowCountSpec sol team c.c_mode1 start_slot (usizeOfI32 c.c_intp) >
                usizeOfI32 c.c_max then
            acc3 + 1
          else acc3)
        (fun _ => True) _ ?hw acc2 trivial]
      · rw [foldl_ite_succ_int]
        rfl
      case hw =>
        intro acc3 start_slot _ hsmem
        refine ⟨?eqw, trivial⟩
        have hwin : start_slot + usizeOfI32 c.c_intp ≤ sol.length := by
          have := List.mem_range.mp hsmem
          have hu := hintp c hcmem
          omega
        have hteam : ∀ row ∈ sol, team < row.length := by
          intro row hrow
          rw [hrows row hrow]
          exact List.mem_range.mp htmem
        rw [windowCount_eq sol team c.c_mode1 start_slot (usizeOfI32 c.c_intp) hteam hwin]
        simp only [optBind_some]
        rfl

theorem capCode_eq_spec (constraints : List CapacityConstraints)
    (sol : List (List Game)) (num_teams : Nat)
    (hb : ∀ c ∈ constraints,
      0 ≤ c.c_intp ∧ c.c_intp < 2 ^ 31 ∧ c.c_intp.toNat ≤ sol.length ∧
      0 ≤ c.c_min ∧ c.c_min < 2 ^ 31 ∧ 0 ≤ c.c_max ∧ c.c_max < 2 ^ 31) :
    capCodeVal constraints sol num_teams = capacitySpecCount constraints sol num_teams := by
  unfold capCodeVal capacitySpecCount
  congr 1
  apply List.map_congr_left
  intro c hc
  obtain ⟨h0, h1, h2, h3, h4, h5, h6⟩ := hb c hc
  congr 1
  apply List.map_congr_left
  intro team _
  congr 1
  have hintp : usizeOfI32 c.c_intp = c.c_intp.toNat :=
    usizeOfI32_eq_toNat _ h0 (by omega)
  have hmin : usizeOfI32 c.c_min = c.c_min.toNat :=
    usizeOfI32_eq_toNat _ h3 (by omega)
  have hmax : usizeOfI32 c.c_max = c.c_max.toNat :=
    usizeOfI32_eq_toNat _ h5 (by omega)
  unfold capViolWindowsCode
  rw [hintp]
  set d := c.c_intp.toNat with hd
  set n := sol.length with hn
  have hsplit : n + 1 = (n - d + 1) + d := by omega
  conv_rhs => rw [hsplit, List.range_add, List.countP_append]
  have hright :
      ((List.range d).map ((n - d + 1) + ·)).countP (fun start =>
        decide (start + d ≤ n ∧
          ¬(c.c_min ≤ (windowCountSpec sol team c.c_mode1 start d : Int) ∧
            (windowCountSpec sol team c.c_mode1 start d : Int) ≤ c.c_max))) = 0 := by
    apply List.countP_eq_zero.mpr
    intro a ha
    simp only [List.mem_map] at ha
    obtain ⟨x, _, rfl⟩ := ha
    simp only [decide_eq_true_eq, not_and]
    intro hcontra
    omega
  rw [hright, Nat.add_zero]
  apply countP_ext
  intro start hstart
  have hs : start < n - d + 1 := List.mem_range.mp hstart
  have hsd : start + d ≤ n := by omega
  have hcnt := Int.toNat_of_nonneg h3
  have hcnt2 := Int.toNat_of_nonneg h5
  simp only [decide_eq_true_eq, capWindowViolCode]
  rw [hintp, hmin, hmax]
  congr 1
  rw [eq_iff_iff]
  constructor
  · intro h
    exact ⟨hsd, by omega⟩
  · intro h
    have := h.2
    omega

/-! ### The separation checker -/

theorem getD_map_range {α : Type} (F : Nat → α) (n o : Nat) (d : α) (ho : o < n) :
    ((List.range n).map F).getD o d = F o := by
  rw [getD_of_lt _ _ _ (by simpa using ho)]
  simp

theorem set_map_range {α : Type} (F : Nat → α) (n o : Nat) (v : α) :
    ((List.range n).map F).set o v =
      (List.range n).map (fun x => if x = o then v else F x) := by
  apply List.ext_getElem
  · simp
  · intro i h1 h2
    simp only [List.length_set, List.length_map, List.length_range] at h1
    rw [List.getElem_set]
    by_cases hio : o = i
    · subst hio
      simp [h1]
    · simp only [hio, if_false, List.getElem_map, List.getElem_range]
      rw [if_neg (fun h => hio h.symm)]

theorem sum_map_update (F G : Nat → Int) (o : Nat) (delta : Int)
    (hdelta : G o = F o + delta) :
    ∀ l : List Nat, l.Nodup → o ∈ l → (∀ x ∈ l, x ≠ o → G x = F x) →
      (l.map G).sum = (l.map F).sum + delta := by
  intro l
  induction l with
  | nil => intro _ h; simp at h
  | cons a rest ih =>
    intro hnd hmem hsame
    rcases List.mem_cons.mp hmem with h | hrest
    · subst h
      have hno : o ∉ rest := (List.nodup_cons.mp hnd).1
      have hmap : rest.map G = rest.map F := by
        apply List.map_congr_left
        intro x hx
        exact hsame x (by simp [hx]) (fun hxa => hno (hxa ▸ hx))
      simp only [List.map_cons, List.sum_cons, hmap, hdelta]
      ring
    · have ha : a ≠ o := by
        intro h
        subst h
        exact (List.nodup_cons.mp hnd).1 hrest
      have := ih (List.nodup_cons.mp hnd).2 hrest
        (fun x hx hxo => hsame x (by simp [hx]) hxo)
      simp only [List.map_cons, List.sum_cons, this, hsame a (by simp) ha]
      ring

theorem consecViol_concat (viol : Nat → Bool) :
    ∀ (l : List Nat) (s : Nat),
      consecViol viol (l ++ [s]) =
        consecViol viol l +
          (match l.getLast? with
            | none => 0
            | some a => if viol (s - a) then 1 else 0) := by
  intro l
  induction l with
  | nil => intro s; simp [consecViol]
  | cons a rest ih =>
    intro s
    cases rest with
    | nil => simp [consecViol]
    | cons b rest2 =>
      have : (a :: b :: rest2) ++ [s] = a :: ((b :: rest2) ++ [s]) := by simp
      rw [this]
      show (if viol (b - a) then 1 else 0) + consecViol viol ((b :: rest2) ++ [s]) = _
      rw [ih s]
      rw [List.getLast?_cons_cons]
      show _ = (if viol (b - a) then 1 else 0) + consecViol viol (b :: rest2) + _
      omega

theorem meetingsUpTo_succ (sol : List (List Game)) (team opp s : Nat) :
    meetingsUpTo sol team opp (s + 1) =
      meetingsUpTo sol team opp s ++
        (if usizeOfI32 ((sol.getD s []).getD team placeholderGame).opponent = opp
          then [s] else []) := by
  unfold meetingsUpTo
  rw [List.range_succ, List.filter_append]
  congr 1
  by_cases h : usizeOfI32 ((sol.getD s []).getD team placeholderGame).opponent = opp
  · simp [List.filter_cons, beq_iff_eq, h]
  · simp [List.filter_cons, beq_iff_eq, h]

theorem sepFold_char (c : SeparationConstraints) (sol : List (List Game))
    (team num_teams : Nat)
    (hvalid : ∀ slot < sol.length,
      usizeOfI32 ((sol.getD slot []).getD team placeholderGame).opponent < num_teams) :
    ∀ s, s ≤ sol.length → ∀ acc : Int,
      (List.range s).foldl (sepStep c sol team)
          (acc, List.replicate num_teams (none : Option Nat)) =
        (acc + ((List.range num_teams).map (fun opp =>
            (consecViol (gapViolCode c) (meetingsUpTo sol team opp s) : Int))).sum,
          (List.range num_teams).map
            (fun opp => (meetingsUpTo sol team opp s).getLast?)) := by
  intro s
  induction s with
  | zero =>
    intro _ acc
    have h0 : ∀ opp, meetingsUpTo sol team opp 0 = [] := fun _ => rfl
    simp only [List.range_zero, List.foldl_nil, h0, consecViol]
    have hsum : ((List.range num_teams).map (fun _ => ((0 : Nat) : Int))).sum = 0 := by
      apply List.sum_eq_zero
      intro x hx
      simp only [List.mem_map] at hx
      obtain ⟨_, _, rfl⟩ := hx
      rfl
    rw [hsum]
    have hrep : (List.range num_teams).map
        (fun _ => (([] : List Nat)).getLast?) = List.replicate num_teams none := by
      apply List.eq_replicate_iff.mpr
      constructor
      · simp
      · intro b hb
        simp only [List.mem_map] at hb
        obtain ⟨_, _, rfl⟩ := hb
        rfl
    rw [hrep]
    simp
  | succ s ih =>
    intro hs acc
    have hsl : s < sol.length := hs
    rw [List.range_succ, List.foldl_append, ih (Nat.le_of_lt hsl) acc,
      List.foldl_cons, List.foldl_nil]
    have hov := hvalid s hsl
    simp only [sepStep]
    set ostar := usizeOfI32 ((sol.getD s []).getD team placeholderGame).opponent with hostar
    have hget : ((List.range num_teams).map
        (fun opp => (meetingsUpTo sol team opp s).getLast?)).getD ostar none =
        (meetingsUpTo sol team ostar s).getLast? :=
      getD_map_range _ _ _ _ hov
    have hvec : ((List.range num_teams).map
          (fun opp => (meetingsUpTo sol team opp s).getLast?)).set ostar (some s) =
        (List.range num_teams).map
          (fun opp => (meetingsUpTo sol team opp (s + 1)).getLast?) := by
      rw [set_map_range]
      apply List.map_congr_left
      intro opp _
      rw [meetingsUpTo_succ, ← hostar]
      by_cases hoo : opp = ostar
      · subst hoo
        rw [if_pos rfl, if_pos rfl, List.getLast?_concat]
      · rw [if_neg hoo, if_neg (fun h => hoo h.symm), List.append_nil]
    have hsum : ∀ delta : Int,
        ((match (meetingsUpTo sol team ostar s).getLast? with
          | none => (0 : Int)
          | some a => if gapViolCode c (s - a) then 1 else 0) = delta) →
        ((List.range num_teams).map (fun opp =>
          (consecViol (gapViolCode c) (meetingsUpTo sol team opp (s + 1)) : Int))).sum =
        ((List.range num_teams).map (fun opp =>
          (consecViol (gapViolCode c) (meetingsUpTo sol team opp s) : Int))).sum + delta := by
      intro delta hdelta
      refine sum_map_update _ _ ostar delta ?hd (List.range num_teams)
        (List.nodup_range _) (List.mem_range.mpr hov) ?hsame
      case hsame =>
        intro x _ hxo
        rw [meetingsUpTo_succ, ← hostar, if_neg (fun h => hxo h.symm), List.append_nil]
      case hd =>
        rw [meetingsUpTo_succ, ← hostar, if_pos rfl, consecViol_concat]
        rw [← hdelta]
        cases hl : (meetingsUpTo sol team ostar s).getLast? with
        | none => push_cast; ring
        | some a =>
          cases hgv : gapViolCode c (s - a) <;> simp [hgv] <;> push_cast <;> ring
    rw [hget, hvec]
    cases hl : (meetingsUpTo sol team ostar s).getLast? with
    | none =>
      rw [hsum 0 (by rw [hl])]
      simp
    | some last =>
      simp only []
      by_cases hv : s - last ≤ usizeOfI32 c.c_min ∨ s - last > usizeOfI32 c.c_max
      · rw [if_pos hv]
        rw [hsum 1 (by rw [hl]; simp [gapViolCode]; omega)]
        exact Prod.ext_iff.mpr ⟨by ring, rfl⟩
      · rw [if_neg hv]
        rw [hsum 0 (by rw [hl]; simp [gapViolCode]; omega)]
        exact Prod.ext_iff.mpr ⟨by ring, rfl⟩

theorem separationViolations_eq_code (constraints : List SeparationConstraints)
    (sol : List (List Game)) (num_teams : Nat)
    (hrows : ∀ row ∈ sol, row.length = num_teams)
    (hvalid : ∀ slot < sol.length, ∀ team < num_teams,
      usizeOfI32 ((sol.getD slot []).getD team placeholderGame).opponent < num_teams) :
    separationViolations constraints sol num_teams =
      some (sepCodeVal constraints sol num_teams) := by
  unfold separationViolations sepCodeVal
  rw [foldlM_eq_foldl_some _
    (fun acc c => acc + ((List.range num_teams).map (fun team =>
      ((List.range num_teams).map (fun opp =>
        (consecViol (gapViolCode c) (meetingSlots sol team opp) : Int))).sum)).sum)
    (fun _ => True) _ ?hc 0 trivial]
  · rw [foldl_add_sum]
    simp
  case hc =>
    intro acc c _ _
    refine ⟨?eqc, trivial⟩
    rw [foldlM_eq_foldl_some _
      (fun acc2 team => acc2 + ((List.range num_teams).map (fun opp =>
        (consecViol (gapViolCode c) (meetingSlots sol team opp) : Int))).sum)
      (fun _ => True) _ ?ht acc trivial]
    · rw [foldl_add_sum]
    case ht =>
      intro acc2 team _ htmem
      refine ⟨?eqt, trivial⟩
      have hteam : team < num_teams := List.mem_range.mp htmem
      rw [foldlM_eq_foldl_some _ (sepStep c sol team)
        (fun st => st.2.length = num_teams) _ ?hslot
        (acc2, List.replicate num_teams (none : Option Nat)) (by simp)]
      · rw [sepFold_char c sol team num_teams
          (fun slot hslot => hvalid slot hslot team hteam) sol.length (Nat.le_refl _) acc2]
        simp only [optBind_some]
        rfl
      case hslot =>
        intro st slot hI hslotmem
        have hslot' : slot < sol.length := List.mem_range.mp hslotmem
        have hgd1 : sol.getD slot [] = sol[slot] := getD_of_lt _ _ _ hslot'
        have hrl : sol[slot].length = num_teams := hrows _ (List.getElem_mem hslot')
        have hteam' : team < sol[slot].length := by omega
        have hgd2 : sol[slot].getD team placeholderGame = sol[slot][team] :=
          getD_of_lt _ _ _ hteam'
        have hopp : usizeOfI32 sol[slot][team].opponent < num_teams := by
          have := hvalid slot hslot' team hteam
          rw [hgd1, hgd2] at this
          exact this
        have hopp2 : usizeOfI32 sol[slot][team].opponent < st.2.length := by omega
        have h1 : sol[slot]? = some sol[slot] := List.getElem?_eq_getElem hslot'
        have h2 : sol[slot][team]? = some sol[slot][team] := List.getElem?_eq_getElem hteam'
        have h3 : st.2[usizeOfI32 sol[slot][team].opponent]? =
            some st.2[usizeOfI32 sol[slot][team].opponent] :=
          List.getElem?_eq_getElem hopp2
        constructor
        · simp only [h1, optBind_some, h2, optBind_some, h3, optBind_some]
          simp only [sepStep]
          rw [hgd1, hgd2, getD_of_lt _ _ _ hopp2]
          rfl
        · show (sepStep c sol team st slot).2.length = num_teams
          simp [sepStep, hI]

theorem sepCode_eq_spec (constraints : List SeparationConstraints)
    (sol : List (List Game)) (num_teams : Nat)
    (hb : ∀ c ∈ constraints,
      0 ≤ c.c_min ∧ c.c_min < 2 ^ 31 ∧ 0 ≤ c.c_max ∧ c.c_max < 2 ^ 31) :
    sepCodeVal constraints sol num_teams = separationSpecCount constraints sol num_teams := by
  unfold sepCodeVal separationSpecCount
  congr 1
  apply List.map_congr_left
  intro c hc
  obtain ⟨h1, h2, h3, h4⟩ := hb c hc
  have hfun : gapViolCode c = gapViolSpec c := by
    funext gap
    unfold gapViolCode gapViolSpec
    rw [usizeOfI32_eq_toNat _ h1 (by omega), usizeOfI32_eq_toNat _ h3 (by omega)]
    rw [decide_eq_decide]
    have := Int.toNat_of_nonneg h1
    have := Int.toNat_of_nonneg h3
    omega
  rw [hfun]

/-! ### The round-robin checker -/

theorem foldl_cons_map {α β : Type} (h : α → β) :
    ∀ (l : List α) (ks : List β),
      l.foldl (fun acc x => h x :: acc) ks = (l.map h).reverse ++ ks := by
  intro l
  induction l with
  | nil => intro ks; simp
  | cons x xs ih =>
    intro ks
    rw [List.foldl_cons, ih]
    simp

theorem foldl_rev_append {α β : Type} (rk : α → List β) :
    ∀ (l : List α) (ks : List β),
      l.foldl (fun acc s => (rk s).reverse ++ acc) ks =
        ((l.map rk).flatten).reverse ++ ks := by
  intro l
  induction l with
  | nil => intro ks; simp
  | cons x xs ih =>
    intro ks
    rw [List.foldl_cons, ih]
    simp

theorem all_count_le_of_perm (L R : List (Nat × Nat)) (hp : List.Perm L R) (m : Nat) :
    (L.all (fun k => L.count k ≤ m)) = (R.all (fun k => R.count k ≤ m)) := by
  rw [Bool.eq_iff_iff, List.all_eq_true, List.all_eq_true]
  constructor
  · intro h x hx
    have hmem := h x (hp.mem_iff.mpr hx)
    have hc : List.count x L = List.count x R := hp.countP_eq (fun y => y == x)
    rw [hc] at hmem
    exact hmem
  · intro h x hx
    have hmem := h x (hp.mem_iff.mp hx)
    have hc : List.count x L = List.count x R := hp.countP_eq (fun y => y == x)
    rw [← hc] at hmem
    exact hmem

theorem roundRobinRespect_eq (sol : List (List Game)) (num_teams : Nat)
    (hrows : ∀ row ∈ sol, row.length = num_teams) :
    roundRobinRespect sol num_teams =
      some ((rrEntries sol num_teams).all
        (fun k => (rrEntries sol num_teams).count k ≤ 4)) := by
  unfold roundRobinRespect
  rw [foldlM_eq_foldl_some _
    (fun ks slot =>
      (List.range num_teams).foldl
        (fun ks2 home_team =>
          rrKey home_team
            (usizeOfI32 ((sol.getD slot []).getD home_team placeholderGame).opponent) :: ks2)
        ks)
    (fun _ => True) _ ?hslot [] trivial]
  · have houter :
        (List.range sol.length).foldl
          (fun ks slot =>
            (List.range num_teams).foldl
              (fun ks2 home_team =>
                rrKey home_team
                  (usizeOfI32 ((sol.getD slot []).getD home_team placeholderGame).opponent)
                  :: ks2)
              ks)
          [] = (rrEntries sol num_teams).reverse := by
      rw [List.foldl_ext _
        (fun ks slot => (rrRowKeys sol num_teams slot).reverse ++ ks) _
        (by
          intro ks slot _
          rw [foldl_cons_map]
          rfl)]
      rw [foldl_rev_append]
      simp [rrEntries]
    rw [houter]
    simp only [optBind_some]
    have hperm : List.Perm ((rrEntries sol num_teams).reverse) (rrEntries sol num_teams) :=
      List.reverse_perm _
    rw [all_count_le_of_perm _ _ hperm]
    rfl
  case hslot =>
    intro ks slot _ hslotmem
    refine ⟨?eq, trivial⟩
    have hslot' : slot < sol.length := List.mem_range.mp hslotmem
    rw [foldlM_eq_foldl_some _
      (fun ks2 home_team =>
        rrKey home_team
          (usizeOfI32 ((sol.getD slot []).getD home_team placeholderGame).opponent) :: ks2)
      (fun _ => True) _ ?ht ks trivial]
    case ht =>
      intro ks2 home_team _ htmem
      refine ⟨?eqt, trivial⟩
      have hteam : home_team < sol[slot].length := by
        rw [hrows _ (List.getElem_mem hslot')]
        exact List.mem_range.mp htmem
      have h1 : sol[slot]? = some sol[slot] := List.getElem?_eq_getElem hslot'
      have h2 : sol[slot][home_team]? = some sol[slot][home_team] :=
        List.getElem?_eq_getElem hteam
      simp only [h1, optBind_some, h2, optBind_some]
      rw [getD_of_lt _ _ _ hslot', getD_of_lt _ _ _ hteam]
      rfl

/-! ### The objective evaluator computes the travel simulation -/

theorem travel_inner (matrix : List (List Int)) (team : Nat) :
    ∀ (rows : List (List Game)) (acc : Int) (cur : Nat),
    ((List.range rows.length).foldl
        (fun (st : Int × Nat) slot =>
          (st.1 +
              (matrix.getD st.2 []).getD
                (nextLocation team ((rows.getD slot []).getD team placeholderGame)) 0,
            nextLocation team ((rows.getD slot []).getD team placeholderGame)))
        (acc, cur)).1 =
      acc + pathCost matrix cur (teamItinerary rows team) := by
  intro rows
  induction rows with
  | nil => intro acc cur; simp [teamItinerary, pathCost]
  | cons r rs ih =>
    intro acc cur
    rw [List.length_cons, List.range_succ_eq_map]
    rw [List.foldl_cons, List.foldl_map]
    rw [List.foldl_ext _
      (fun (st : Int × Nat) slot =>
        (st.1 +
            (matrix.getD st.2 []).getD
              (nextLocation team ((rs.getD slot []).getD team placeholderGame)) 0,
          nextLocation team ((rs.getD slot []).getD team placeholderGame)))
      _ (by intro a b _; simp [List.getD_cons_succ])]
    rw [ih]
    simp [teamItinerary, pathCost, add_assoc]

/-- Shared refinement: the embedded `evaluate_objective` equals the
specification's travel-simulation sum. -/
theorem evaluate_objective_eq_spec (matrix : List (List Int)) (solution_matrix : Solution) :
    evaluate_objective matrix solution_matrix =
      travelSimulationSpec matrix solution_matrix.solution := by
  simp only [evaluate_objective, travelSimulationSpec]
  rw [List.foldl_ext _
    (fun (tot : Int) team =>
      tot + pathCost matrix team (teamItinerary solution_matrix.solution team))
    _ (by
      intro a team _
      have := travel_inner matrix team solution_matrix.solution a team
      simp only [nextLocation] at this
      exact this)]
  rw [foldl_add_sum (fun team => pathCost matrix team (teamItinerary solution_matrix.solution team))]
  simp

theorem pathCost_diag_zero (matrix : List (List Int)) (t : Nat)
    (hd : (matrix.getD t []).getD t 0 = 0) :
    ∀ n, pathCost matrix t (List.replicate n t) = 0 := by
  intro n
  induction n with
  | zero => simp [pathCost]
  | succ k ih =>
    simp only [List.replicate_succ, pathCost]
    rw [hd, ih]
    simp

theorem teamItinerary_all_home (rows : List (List Game)) (team : Nat)
    (hlen : ∀ row ∈ rows, team < row.length)
    (hhome : ∀ row ∈ rows, ∀ g ∈ row, g.home_game = true) :
    teamItinerary rows team = List.replicate rows.length team := by
  induction rows with
  | nil => simp [teamItinerary]
  | cons r rs ih =>
    have hr : team < r.length := hlen r (by simp)
    have hg : (r.getD team placeholderGame).home_game = true := by
      have : r.getD team placeholderGame = r[team] := by
        rw [List.getD_eq_getElem?_getD, List.getElem?_eq_getElem hr]; rfl
      rw [this]
      exact hhome r (by simp) _ (List.getElem_mem hr)
    simp only [teamItinerary, List.map_cons, List.length_cons, List.replicate_succ]
    have h1 : nextLocation team (r.getD team placeholderGame) = team := by
      simp only [nextLocation]
      rw [hg]
      simp
    have h2 := ih (fun row hrow => hlen row (by simp [hrow]))
      (fun row hrow g hgg => hhome row (by simp [hrow]) g hgg)
    simp only [teamItinerary] at h2
    rw [h1, h2]

/-! ### The permutation sampler loops forever on an oversized request -/

theorem permutationLoop_none (target : Nat) (shuffles : Nat → List Int)
    (perms : List (List Int)) (huniv : ∀ n, shuffles n ∈ perms)
    (hsmall : perms.length < target) :
    ∀ (fuel step : Nat) (acc : List (List Int)),
      acc.Nodup → (∀ p ∈ acc, p ∈ perms) →
      permutationLoop target shuffles fuel step acc = none := by
  intro fuel
  induction fuel with
  | zero =>
    intro step acc hnd hsub
    have hle : acc.length ≤ perms.length :=
      (hnd.subperm (fun p hp => hsub p hp)).length_le
    simp [permutationLoop, Nat.lt_of_le_of_lt hle hsmall]
  | succ k ih =>
    intro step acc hnd hsub
    have hle : acc.length ≤ perms.length :=
      (hnd.subperm (fun p hp => hsub p hp)).length_le
    have hlt : acc.length < target := Nat.lt_of_le_of_lt hle hsmall
    rw [permutationLoop, if_pos hlt]
    apply ih
    · unfold hsInsert
      by_cases hmem : shuffles step ∈ acc
      · simpa [hmem] using hnd
      · simp only [hmem, if_false]
        exact List.Nodup.cons hmem hnd
    · intro p hp
      unfold hsInsert at hp
      by_cases hmem : shuffles step ∈ acc
      · exact hsub p (by simpa [hmem] using hp)
      · simp only [hmem, if_false, List.mem_cons] at hp
        rcases hp with rfl | hp
        · exact huniv step
        · exact hsub p hp

theorem perm_of_pair (p : List Int) (h : List.Perm p [0, 1]) : p = [0, 1] ∨ p = [1, 0] := by
  have hlen : p.length = 2 := by simpa using h.length_eq
  match p, hlen with
  | [a, b], _ =>
    have h0 : List.count 0 [a, b] = 1 := by
      rw [h.count_eq]; decide
    have h1 : List.count 1 [a, b] = 1 := by
      rw [h.count_eq]; decide
    by_cases ha : a = 0
    · subst ha
      left
      have : b = 1 := by
        by_contra hb
        simp [List.count_cons, hb] at h1
      rw [this]
    · right
      have hb : b = 0 := by
        by_contra hb
        simp [List.count_cons, ha, hb] at h0
      subst hb
      have : a = 1 := by
        by_contra hy
        simp [List.count_cons, ha, hy] at h1
      rw [this]

/-! ### The constructor: list rotation and matrix-write lemmas -/

theorem getD_set_self {α : Type} :
    ∀ (l : List α) (i : Nat) (a d : α), i < l.length → (l.set i a).getD i d = a := by
  intro l
  induction l with
  | nil => intro i a d h; simp at h
  | cons x xs ih =>
    intro i a d h
    cases i with
    | zero => rfl
    | succ j =>
      simp only [List.set_cons_succ, List.getD_cons_succ]
      exact ih j a d (by simpa using h)

theorem getD_set_ne {α : Type} :
    ∀ (l : List α) (i j : Nat) (a d : α), j ≠ i → (l.set i a).getD j d = l.getD j d := by
  intro l
  induction l with
  | nil => intro i j a d _; rfl
  | cons x xs ih =>
    intro i j a d h
    cases i with
    | zero =>
      cases j with
      | zero => exact absurd rfl h
      | succ jj => simp [List.set_cons_zero, List.getD_cons_succ]
    | succ ii =>
      cases j with
      | zero => rfl
      | succ jj =>
        simp only [List.set_cons_succ, List.getD_cons_succ]
        exact ih ii jj a d (fun hh => h (by rw [hh]))

theorem writeGame_length (mat : List (List Game)) (r t : Nat) (g : Game) :
    (writeGame mat r t g).length = mat.length := by
  simp [writeGame]

theorem writeGame_getD_ne (mat : List (List Game)) (r t : Nat) (g : Game)
    (rr : Nat) (h : rr ≠ r) :
    (writeGame mat r t g).getD rr [] = mat.getD rr [] :=
  getD_set_ne _ _ _ _ _ h

theorem writeGame_getD_self (mat : List (List Game)) (r t : Nat) (g : Game)
    (h : r < mat.length) :
    (writeGame mat r t g).getD r [] = (mat.getD r []).set t g :=
  getD_set_self _ _ _ _ h

theorem rotr1_eq_cons (l : List Nat) (h : l ≠ []) :
    rotr1 l = l.getLast h :: l.dropLast := by
  unfold rotr1
  have hrev : l.reverse = l.getLast h :: l.dropLast.reverse := by
    conv_lhs => rw [← List.dropLast_append_getLast h]
    rw [List.reverse_append]
    simp
  rw [hrev]
  simp

theorem rotr1_length (l : List Nat) : (rotr1 l).length = l.length := by
  cases l with
  | nil => rfl
  | cons a as =>
    rw [rotr1_eq_cons _ (by simp)]
    simp

theorem rotr1_getD (l : List Nat) (p : Nat) (hp : p < l.length) :
    (rotr1 l).getD p 0 = l.getD ((p + l.length - 1) % l.length) 0 := by
  have hne : l ≠ [] := by
    intro h
    subst h
    simp at hp
  rw [rotr1_eq_cons l hne]
  cases p with
  | zero =>
    have hlt : l.length - 1 < l.length := by omega
    rw [List.getD_cons_zero]
    have hidx : (0 + l.length - 1) % l.length = l.length - 1 := by
      rw [Nat.zero_add]
      exact Nat.mod_eq_of_lt hlt
    rw [hidx, getD_of_lt _ _ _ hlt, List.getLast_eq_getElem]
  | succ q =>
    rw [List.getD_cons_succ]
    have hq : q < l.dropLast.length := by
      rw [List.length_dropLast]
      omega
    rw [getD_of_lt _ _ _ hq]
    have hidx : (q + 1 + l.length - 1) % l.length = q := by
      have h1 : q + 1 + l.length - 1 = q + l.length := by omega
      rw [h1, Nat.add_mod_right]
      exact Nat.mod_eq_of_lt (by omega)
    rw [hidx, getD_of_lt _ _ _ (show q < l.length by omega)]
    exact List.getElem_dropLast l q hq

theorem rotr1_perm (l : List Nat) : List.Perm (rotr1 l) l := by
  cases hl : l with
  | nil => simp [rotr1]
  | cons a as =>
    have hne : l ≠ [] := by rw [hl]; simp
    have hperm := List.perm_append_singleton (l.getLast hne) l.dropLast
    have hdl : l.dropLast ++ [l.getLast hne] = l := List.dropLast_append_getLast hne
    rw [← hl, rotr1_eq_cons l hne]
    have h2 : List.Perm (l.getLast hne :: l.dropLast) (l.dropLast ++ [l.getLast hne]) :=
      hperm.symm
    rw [hdl] at h2
    exact h2

theorem rotIter_length (l : List Nat) (r : Nat) : (rotr1^[r] l).length = l.length := by
  induction r with
  | zero => rfl
  | succ k ih => rw [Function.iterate_succ_apply', rotr1_length, ih]

theorem rotIter_getD (l : List Nat) :
    ∀ (r p : Nat), p < l.length →
      (rotr1^[r] l).getD p 0 = l.getD ((p + (l.length - 1) * r) % l.length) 0 := by
  intro r
  induction r with
  | zero =>
    intro p hp
    rw [Function.iterate_zero_apply, Nat.mul_zero, Nat.add_zero, Nat.mod_eq_of_lt hp]
  | succ k ih =>
    intro p hp
    rw [Function.iterate_succ_apply']
    have hp' : p < (rotr1^[k] l).length := by
      rw [rotIter_length]
      exact hp
    rw [rotr1_getD _ p hp', rotIter_length l k]
    have hlt : (p + l.length - 1) % l.length < l.length := Nat.mod_lt _ (by omega)
    rw [ih ((p + l.length - 1) % l.length) hlt]
    congr 1
    rw [Nat.mod_add_mod]
    congr 1
    rw [Nat.mul_succ]
    omega

theorem rotIter_perm (l : List Nat) (r : Nat) : List.Perm (rotr1^[r] l) l := by
  induction r with
  | zero => exact List.Perm.refl l
  | succ k ih =>
    rw [Function.iterate_succ_apply']
    exact (rotr1_perm _).trans ih

theorem teamsAt_length (lrot : List Nat) (f r : Nat) :
    (teamsAt lrot f r).length = lrot.length + 1 := by
  simp [teamsAt, rotIter_length]

theorem teamsAt_getD_lt (lrot : List Nat) (f r p : Nat) (hp : p < lrot.length) :
    (teamsAt lrot f r).getD p 0 =
      lrot.getD ((p + (lrot.length - 1) * r) % lrot.length) 0 := by
  unfold teamsAt
  rw [List.getD_append _ _ _ _ (by rw [rotIter_length]; exact hp)]
  exact rotIter_getD lrot r p hp

theorem teamsAt_getD_last (lrot : List Nat) (f r : Nat) :
    (teamsAt lrot f r).getD lrot.length 0 = f := by
  unfold teamsAt
  rw [List.getD_append_right _ _ _ _ (by rw [rotIter_length])]
  rw [rotIter_length]
  simp

theorem teamsAt_perm (lrot : List Nat) (f r : Nat) :
    List.Perm (teamsAt lrot f r) (lrot ++ [f]) :=
  (rotIter_perm lrot r).append_right [f]

theorem roundRotate_append_singleton (x : List Nat) (f : Nat) :
    roundRotate (x ++ [f]) = rotr1 x ++ [f] := by
  unfold roundRotate
  have h : (x ++ [f]).reverse = f :: x.reverse := by simp
  rw [h]
  simp

theorem roundRotate_teamsAt (lrot : List Nat) (f r : Nat) :
    roundRotate (teamsAt lrot f r) = teamsAt lrot f (r + 1) := by
  unfold teamsAt
  rw [roundRotate_append_singleton, Function.iterate_succ_apply']

theorem moveToEnd_length (l : List Nat) (i : Nat) (h : i < l.length) :
    (moveToEnd l i).length = l.length := by
  unfold moveToEnd
  rw [List.length_append, List.length_eraseIdx]
  simp only [if_pos h, List.length_singleton]
  omega

theorem moveToEnd_perm (l : List Nat) (i : Nat) (h : i < l.length) :
    List.Perm (moveToEnd l i) l := by
  unfold moveToEnd
  rw [getD_of_lt _ _ _ h]
  refine (List.perm_append_singleton _ _).trans ?_
  rw [List.eraseIdx_eq_take_drop_succ]
  refine (List.perm_middle).symm.trans ?_
  rw [← List.drop_eq_getElem_cons h, List.take_append_drop]

theorem nodup_getD_inj (teams : List Nat) (hnd : teams.Nodup) (p q : Nat)
    (hp : p < teams.length) (hq : q < teams.length)
    (heq : teams.getD p 0 = teams.getD q 0) : p = q := by
  rw [getD_of_lt _ _ _ hp, getD_of_lt _ _ _ hq] at heq
  exact (List.Nodup.getElem_inj_iff hnd).mp heq

theorem florianRoundWrites_eq_pairWrite (numTeams : Nat) (upward : Bool)
    (teams : List Nat) (round : Nat) (mat : List (List Game)) :
    florianRoundWrites numTeams upward teams round mat =
      (List.range (numTeams / 2)).foldl (florianPairWrite numTeams upward teams round) mat := by
  unfold florianRoundWrites
  rw [List.foldl_ext _ (florianPairWrite numTeams upward teams round) _ ?hext]
  case hext =>
    intro m2 i _
    cases hb : ((round % 2 == 0) == upward) <;> simp [florianPairWrite, hb]

theorem florianPartial_char (N : Nat) (upward : Bool) (teams : List Nat) (round : Nat)
    (hlen : teams.length = N) (hnd : teams.Nodup) (hmem : ∀ x ∈ teams, x < N)
    (hNeven : N % 2 = 0) (mat : List (List Game))
    (hround : round < mat.length) (hrowlen : (mat.getD round []).length = N) :
    ∀ k, k ≤ N / 2 →
      ((List.range k).foldl (florianPairWrite N upward teams round) mat).length = mat.length ∧
      (∀ rr, rr ≠ round →
        ((List.range k).foldl (florianPairWrite N upward teams round) mat).getD rr [] =
          mat.getD rr []) ∧
      (((List.range k).foldl (florianPairWrite N upward teams round) mat).getD round
        []).length = N ∧
      (∀ p, p < N →
        (((List.range k).foldl (florianPairWrite N upward teams round) mat).getD round
            []).getD (teams.getD p 0) placeholderGame =
          (if p < k ∨ N - 1 - p < k then
            { home_game := if p < N / 2 then ((round % 2 == 0) == upward)
                else !((round % 2 == 0) == upward),
              opponent := ((teams.getD (N - 1 - p) 0 : Nat) : Int) }
          else (mat.getD round []).getD (teams.getD p 0) placeholderGame)) := by
  intro k
  induction k with
  | zero =>
    refine fun _ => ⟨rfl, fun _ _ => rfl, hrowlen, ?_⟩
    intro p _
    rw [if_neg (by omega)]
    rfl
  | succ j ih =>
    intro hk
    obtain ⟨ihlen, ihne, ihrow, ihcell⟩ := ih (by omega)
    rw [List.range_succ, List.foldl_append, List.foldl_cons, List.foldl_nil]
    have hj2 : j < N / 2 := hk
    have hjN : j < N := by omega
    have hNjN : N - 1 - j < N := by omega
    have hjne : j ≠ N - 1 - j := by omega
    have hta : teams.getD j 0 < N :=
      hmem _ (by rw [getD_of_lt _ _ _ (by omega : j < teams.length)]; exact List.getElem_mem _)
    have htb : teams.getD (N - 1 - j) 0 < N :=
      hmem _ (by
        rw [getD_of_lt _ _ _ (by omega : N - 1 - j < teams.length)]
        exact List.getElem_mem _)
    have htane : teams.getD j 0 ≠ teams.getD (N - 1 - j) 0 := by
      intro h
      exact hjne (nodup_getD_inj teams hnd j (N - 1 - j) (by omega) (by omega) h)
    have hrlt : round < ((List.range j).foldl (florianPairWrite N upward teams round) mat).length := by
      rw [ihlen]
      exact hround
    have hrlt2 : round <
        (writeGame ((List.range j).foldl (florianPairWrite N upward teams round) mat) round
          (teams.getD j 0)
          { home_game := ((round % 2 == 0) == upward),
            opponent := (teams.getD (N - 1 - j) 0 : Int) }).length := by
      rw [writeGame_length, ihlen]
      exact hround
    refine ⟨?len, ?ne, ?row, ?cell⟩
    case len =>
      simp only [florianPairWrite, writeGame_length]
      exact ihlen
    case ne =>
      intro rr hrr
      simp only [florianPairWrite]
      rw [writeGame_getD_ne _ _ _ _ _ hrr, writeGame_getD_ne _ _ _ _ _ hrr]
      exact ihne rr hrr
    case row =>
      simp only [florianPairWrite]
      rw [writeGame_getD_self _ _ _ _ hrlt2, writeGame_getD_self _ _ _ _ hrlt]
      simp only [List.length_set]
      exact ihrow
    case cell =>
      intro p hp
      simp only [florianPairWrite]
      rw [writeGame_getD_self _ _ _ _ hrlt2, writeGame_getD_self _ _ _ _ hrlt]
      by_cases hpj : p = j
      · subst hpj
        rw [getD_set_ne _ _ _ _ _ htane, getD_set_self _ _ _ _ (by rw [ihrow]; exact hta)]
        rw [if_pos (show p < p + 1 ∨ N - 1 - p < p + 1 by omega), if_pos hj2]
      · by_cases hpb : p = N - 1 - j
        · subst hpb
          have hNjp : N - 1 - (N - 1 - j) = j := by omega
          rw [getD_set_self _ _ _ _ (by simp only [List.length_set]; rw [ihrow]; exact htb)]
          rw [if_pos (show N - 1 - j < j + 1 ∨ N - 1 - (N - 1 - j) < j + 1 by omega),
            if_neg (show ¬(N - 1 - j < N / 2) by omega), hNjp]
        · have hne1 : teams.getD p 0 ≠ teams.getD j 0 := by
            intro h
            exact hpj (nodup_getD_inj teams hnd p j (by omega) (by omega) h)
          have hne2 : teams.getD p 0 ≠ teams.getD (N - 1 - j) 0 := by
            intro h
            exact hpb (nodup_getD_inj teams hnd p (N - 1 - j) (by omega) (by omega) h)
          rw [getD_set_ne _ _ _ _ _ hne2, getD_set_ne _ _ _ _ _ hne1]
          have := ihcell p hp
          by_cases hc : p < j ∨ N - 1 - p < j
          · rw [this, if_pos hc, if_pos (show p < j + 1 ∨ N - 1 - p < j + 1 by omega)]
          · rw [this, if_neg hc, if_neg (show ¬(p < j + 1 ∨ N - 1 - p < j + 1) by omega)]

theorem getD_replicate {α : Type} (x d : α) (n s : Nat) (h : s < n) :
    (List.replicate n x).getD s d = x := by
  rw [getD_of_lt _ _ _ (by simpa using h)]
  simp

theorem florianFold_char (ids : List Nat) (numSlots a : Nat) (upward : Bool)
    (lrot : List Nat) (f : Nat)
    (hlrot : lrot = ids.eraseIdx a) (hf : f = ids.getD a 0)
    (hN2 : 2 ≤ ids.length) (hEven : ids.length % 2 = 0)
    (hperm : List.Perm ids (List.range ids.length)) (ha : a < ids.length)
    (hslots : 2 * (ids.length - 1) ≤ numSlots) :
    ∀ k, k ≤ 2 * (ids.length - 1) →
      ((List.range k).foldl (florianStep ids.length upward)
        (List.replicate numSlots (List.replicate ids.length placeholderGame),
          lrot ++ [f])).2 = teamsAt lrot f k ∧
      ((List.range k).foldl (florianStep ids.length upward)
        (List.replicate numSlots (List.replicate ids.length placeholderGame),
          lrot ++ [f])).1.length = numSlots ∧
      (∀ s, s < numSlots → k ≤ s →
        ((List.range k).foldl (florianStep ids.length upward)
          (List.replicate numSlots (List.replicate ids.length placeholderGame),
            lrot ++ [f])).1.getD s [] = List.replicate ids.length placeholderGame) ∧
      (∀ s, s < k →
        (((List.range k).foldl (florianStep ids.length upward)
          (List.replicate numSlots (List.replicate ids.length placeholderGame),
            lrot ++ [f])).1.getD s []).length = ids.length) ∧
      (∀ s, s < k → ∀ p, p < ids.length →
        (((List.range k).foldl (florianStep ids.length upward)
          (List.replicate numSlots (List.replicate ids.length placeholderGame),
            lrot ++ [f])).1.getD s []).getD ((teamsAt lrot f s).getD p 0) placeholderGame =
          florianCell lrot f upward ids.length s p) := by
  have hlrotlen : lrot.length = ids.length - 1 := by
    rw [hlrot, List.length_eraseIdx]
    simp [ha]
  have hmperm : List.Perm (lrot ++ [f]) ids := by
    rw [hlrot, hf]
    exact moveToEnd_perm ids a ha
  have htperm : ∀ r, List.Perm (teamsAt lrot f r) (List.range ids.length) := by
    intro r
    exact ((teamsAt_perm lrot f r).trans hmperm).trans hperm
  have htlen : ∀ r, (teamsAt lrot f r).length = ids.length := by
    intro r
    rw [teamsAt_length, hlrotlen]
    omega
  have htnd : ∀ r, (teamsAt lrot f r).Nodup := by
    intro r
    exact (htperm r).nodup_iff.mpr (List.nodup_range _)
  have htmem : ∀ r, ∀ x ∈ teamsAt lrot f r, x < ids.length := by
    intro r x hx
    exact List.mem_range.mp ((htperm r).mem_iff.mp hx)
  intro k
  induction k with
  | zero =>
    intro _
    refine ⟨rfl, by simp, ?_, by omega, by omega⟩
    intro s hs _
    exact getD_replicate _ _ _ _ hs
  | succ k ih =>
    intro hk
    obtain ⟨ihteams, ihlen, ihrep, ihrow, ihcell⟩ := ih (by omega)
    rw [List.range_succ, List.foldl_append, List.foldl_cons, List.foldl_nil]
    set Fk := (List.range k).foldl (florianStep ids.length upward)
      (List.replicate numSlots (List.replicate ids.length placeholderGame), lrot ++ [f])
      with hFk
    have hstep : florianStep ids.length upward Fk k =
        (florianRoundWrites ids.length upward (teamsAt lrot f k) k Fk.1,
          teamsAt lrot f (k + 1)) := by
      unfold florianStep
      rw [ihteams, roundRotate_teamsAt]
    rw [hstep]
    have hkslots : k < numSlots := by omega
    have hkrow : Fk.1.getD k [] = List.replicate ids.length placeholderGame :=
      ihrep k hkslots (Nat.le_refl k)
    have hrowlen : (Fk.1.getD k []).length = ids.length := by
      rw [hkrow]
      simp
    have hpc := florianPartial_char ids.length upward (teamsAt lrot f k) k
      (htlen k) (htnd k) (htmem k) hEven Fk.1
      (by rw [ihlen]; exact hkslots) hrowlen (ids.length / 2) (Nat.le_refl _)
    rw [florianRoundWrites_eq_pairWrite]
    obtain ⟨pclen, pcne, pcrow, pccell⟩ := hpc
    refine ⟨rfl, ?_, ?_, ?_, ?_⟩
    · rw [pclen, ihlen]
    · intro s hs hks
      rw [pcne s (by omega), ihrep s hs (by omega)]
    · intro s hs
      by_cases hsk : s = k
      · subst hsk
        rw [pcrow]
      · rw [pcne s hsk]
        exact ihrow s (by omega)
    · intro s hs p hp
      by_cases hsk : s = k
      · subst hsk
        rw [pccell p hp, if_pos (by omega)]
        rfl
      · rw [pcne s hsk]
        exact ihcell s (by omega) p hp

/-! ### Solving the round congruences of the circle method -/

theorem coprime_two_odd (m : Nat) (h : m % 2 = 1) : Nat.Coprime 2 m := by
  show Nat.gcd 2 m = 1
  rw [Nat.gcd_rec, h]
  rfl

theorem add_mul_mod_reduce (m k c s : Nat) :
    (c + k * s) % m = (c + k * (s % m)) % m := by
  conv_lhs => rw [← Nat.div_add_mod s m]
  rw [show c + k * (m * (s / m) + s % m) = c + k * (s % m) + m * (k * (s / m)) by ring,
    Nat.add_mul_mod_self_left]

theorem cong_inj_of_coprime (m k c : Nat) (hm : 0 < m) (hcop : Nat.Coprime k m) :
    ∀ r1 r2, r1 < m → r2 < m →
      (c + k * r1) % m = (c + k * r2) % m → r1 = r2 := by
  have main : ∀ r1 r2, r2 ≤ r1 → r1 < m →
      (c + k * r1) % m = (c + k * r2) % m → r1 = r2 := by
    intro r1 r2 hle hlt h
    have hmeq : c + k * r2 ≡ c + k * r1 [MOD m] := h.symm
    have h2 : k * r2 ≡ k * r1 [MOD m] := Nat.ModEq.add_left_cancel' c hmeq
    have h3 : m ∣ k * r1 - k * r2 :=
      (Nat.modEq_iff_dvd' (Nat.mul_le_mul_left k hle)).mp h2
    rw [← Nat.mul_sub] at h3
    have h4 : m ∣ r1 - r2 := by
      refine Nat.Coprime.dvd_of_dvd_mul_left hcop.symm ?_
      exact h3
    have h5 : r1 - r2 = 0 := Nat.eq_zero_of_dvd_of_lt h4 (by omega)
    omega
  intro r1 r2 h1 h2 h
  rcases Nat.le_total r2 r1 with hle | hle
  · exact main r1 r2 hle h1 h
  · exact (main r2 r1 hle h2 h.symm).symm

theorem solveCong (m k c : Nat) (hm : 0 < m) (hcop : Nat.Coprime k m) :
    ∃ σ, σ < m ∧ ∀ s, ((c + k * s) % m = 0 ↔ s % m = σ) := by
  have hinj : Function.Injective
      (fun r : Fin m => (⟨(c + k * r.val) % m, Nat.mod_lt _ hm⟩ : Fin m)) := by
    intro r1 r2 h
    have h2 : (c + k * r1.val) % m = (c + k * r2.val) % m := congrArg Fin.val h
    exact Fin.ext (cong_inj_of_coprime m k c hm hcop r1.val r2.val r1.isLt r2.isLt h2)
  have hsurj := Finite.injective_iff_surjective.mp hinj
  obtain ⟨σf, hσf⟩ := hsurj ⟨0, hm⟩
  refine ⟨σf.val, σf.isLt, ?_⟩
  have hσ0 : (c + k * σf.val) % m = 0 := congrArg Fin.val hσf
  intro s
  constructor
  · intro h
    have h1 : (c + k * (s % m)) % m = (c + k * σf.val) % m := by
      rw [← add_mul_mod_reduce, h, hσ0]
    exact cong_inj_of_coprime m k c hm hcop (s % m) σf.val (Nat.mod_lt _ hm) σf.isLt h1
  · intro h
    rw [add_mul_mod_reduce, h, hσ0]

theorem mod_char_two_range (m σ s : Nat) (hσ : σ < m) (hs : s < 2 * m) :
    (s % m = σ) ↔ (s = σ ∨ s = σ + m) := by
  rcases Nat.lt_or_ge s m with h | h
  · rw [Nat.mod_eq_of_lt h]
    omega
  · rw [Nat.mod_eq_sub_mod h, Nat.mod_eq_of_lt (by omega)]
    omega

theorem countP_range_eq_one (p : Nat → Bool) :
    ∀ (n : Nat) (σ : Nat), σ < n → (∀ s, s < n → (p s = true ↔ s = σ)) →
      (List.range n).countP p = 1 := by
  intro n
  induction n with
  | zero => intro σ h; omega
  | succ k ih =>
    intro σ hσ hchar
    rw [List.range_succ, List.countP_append]
    by_cases hks : σ = k
    · subst hks
      have hz : (List.range σ).countP p = 0 := by
        apply List.countP_eq_zero.mpr
        intro s hs hps
        have h1 := List.mem_range.mp hs
        have h2 := (hchar s (by omega)).mp hps
        omega
      rw [hz]
      have hσp : p σ = true := (hchar σ (by omega)).mpr rfl
      simp [List.countP_cons, hσp]
    · have hσk : σ < k := by omega
      rw [ih σ hσk (fun s hs => hchar s (by omega))]
      have hpk : p k = false := by
        cases hb : p k with
        | false => rfl
        | true =>
          have := (hchar k (by omega)).mp hb
          omega
      simp [List.countP_cons, hpk]

theorem teamsAt_pos_of_lrot (lrot : List Nat) (f s q : Nat) (hq : q < lrot.length) :
    (teamsAt lrot f s).getD ((q + s) % lrot.length) 0 = lrot.getD q 0 := by
  have hm : 0 < lrot.length := by omega
  rw [teamsAt_getD_lt _ _ _ _ (Nat.mod_lt _ hm)]
  congr 1
  rw [Nat.mod_add_mod]
  have h1 : q + s + (lrot.length - 1) * s = q + lrot.length * s := by
    rw [Nat.sub_one_mul]
    have h2 : s ≤ lrot.length * s := Nat.le_mul_of_pos_left s hm
    omega
  rw [h1, Nat.add_mul_mod_self_left, Nat.mod_eq_of_lt hq]

theorem mod_eq_zero_iff_small (m x : Nat) (hm : 0 < m) (hx : x < 2 * m) :
    x % m = 0 ↔ x = 0 ∨ x = m := by
  constructor
  · intro h
    rcases Nat.lt_or_ge x m with hlt | hge
    · left
      rw [Nat.mod_eq_of_lt hlt] at h
      exact h
    · right
      rw [Nat.mod_eq_sub_mod hge, Nat.mod_eq_of_lt (by omega)] at h
      omega
  · rintro (rfl | rfl)
    · simp
    · simp

theorem florian_meet_char (sched : List (List Game)) (lrot : List Nat) (f N : Nat)
    (upward : Bool) (hm : lrot.length = N - 1) (hN2 : 2 ≤ N) (hEven : N % 2 = 0)
    (hperm : List.Perm (lrot ++ [f]) (List.range N))
    (hcell : ∀ s, s < 2 * (N - 1) → ∀ p, p < N →
      (sched.getD s []).getD ((teamsAt lrot f s).getD p 0) placeholderGame =
        florianCell lrot f upward N s p)
    (u v : Nat) (hu : u < N) (hv : v < N) (huv : u ≠ v) :
    ∃ σ, σ < N - 1 ∧ ∀ s, s < 2 * (N - 1) →
      ((((sched.getD s []).getD u placeholderGame).opponent = (v : Int)) ↔
        (s = σ ∨ s = σ + (N - 1))) := by
  have hmpos : 0 < lrot.length := by omega
  have hmodd : lrot.length % 2 = 1 := by omega
  have hndfull : (lrot ++ [f]).Nodup := hperm.nodup_iff.mpr (List.nodup_range _)
  obtain ⟨hndrot, hndf, hdisj⟩ := List.nodup_append.mp hndfull
  have hfnot : f ∉ lrot := fun hmem => hdisj hmem (by simp)
  have hNin : ∀ x, x < N → x ∈ lrot ++ [f] := fun x hx =>
    hperm.mem_iff.mpr (List.mem_range.mpr hx)
  have getq : ∀ w, w < N → w ≠ f → ∃ q, q < lrot.length ∧ lrot.getD q 0 = w := by
    intro w hw hwf
    have hmem : w ∈ lrot ++ [f] := hNin w hw
    rcases List.mem_append.mp hmem with hin | hin
    · obtain ⟨i, hi, hieq⟩ := List.mem_iff_getElem.mp hin
      exact ⟨i, hi, by rw [getD_of_lt _ _ _ hi]; exact hieq⟩
    · exact absurd (by simpa using hin) hwf
  have htlen : ∀ r, (teamsAt lrot f r).length = N := by
    intro r
    rw [teamsAt_length, hm]
    omega
  have htnd : ∀ r, (teamsAt lrot f r).Nodup := fun r =>
    ((teamsAt_perm lrot f r).nodup_iff).mpr hndfull
  have posInj : ∀ s p1 p2, p1 < N → p2 < N →
      (teamsAt lrot f s).getD p1 0 = (teamsAt lrot f s).getD p2 0 → p1 = p2 := by
    intro s p1 p2 h1 h2 heq
    exact nodup_getD_inj _ (htnd s) p1 p2 (by rw [htlen]; exact h1)
      (by rw [htlen]; exact h2) heq
  have hlast : ∀ s, (teamsAt lrot f s).getD (N - 1) 0 = f := by
    intro s
    rw [← hm]
    exact teamsAt_getD_last lrot f s
  by_cases huf : u = f
  · -- the anchor's opponent is the team at position 0
    have hvf : v ≠ f := fun h => huv (by rw [huf, h])
    obtain ⟨qv, hqv, hqveq⟩ := getq v hv hvf
    have hopp : ∀ s, s < 2 * (N - 1) →
        ((sched.getD s []).getD u placeholderGame).opponent =
          ((teamsAt lrot f s).getD 0 0 : Int) := by
      intro s hs
      have hc := hcell s hs (N - 1) (by omega)
      rw [hlast s] at hc
      rw [huf, hc]
      show ((teamsAt lrot f s).getD (N - 1 - (N - 1)) 0 : Int) =
        ((teamsAt lrot f s).getD 0 0 : Int)
      rw [show N - 1 - (N - 1) = 0 from by omega]
    obtain ⟨σ, hσlt, hσchar⟩ := solveCong lrot.length 1 qv hmpos (Nat.coprime_one_left _)
    refine ⟨σ, by omega, ?_⟩
    intro s hs
    rw [hopp s hs, Nat.cast_inj]
    have hstep1 : ((teamsAt lrot f s).getD 0 0 = v) ↔
        ((qv + s) % lrot.length = 0) := by
      rw [teamsAt_getD_lt lrot f s 0 hmpos, Nat.zero_add]
      constructor
      · intro h
        have hidx : ((lrot.length - 1) * s) % lrot.length = qv :=
          nodup_getD_inj lrot hndrot _ _ (Nat.mod_lt _ hmpos) hqv (h.trans hqveq.symm)
        calc (qv + s) % lrot.length
            = (((lrot.length - 1) * s) % lrot.length + s) % lrot.length := by rw [hidx]
          _ = ((lrot.length - 1) * s + s) % lrot.length := Nat.mod_add_mod _ _ _
          _ = (lrot.length * s) % lrot.length := by
              congr 1
              rw [Nat.sub_one_mul]
              have : s ≤ lrot.length * s := Nat.le_mul_of_pos_left s hmpos
              omega
          _ = 0 := Nat.mul_mod_right _ _
      · intro h
        have h1 : ((lrot.length - 1) * s + s) % lrot.length = 0 := by
          rw [show (lrot.length - 1) * s + s = lrot.length * s by
            rw [Nat.sub_one_mul]
            have : s ≤ lrot.length * s := Nat.le_mul_of_pos_left s hmpos
            omega]
          exact Nat.mul_mod_right _ _
        have h2 : (lrot.length - 1) * s + s ≡ qv + s [MOD lrot.length] := by
          show _ % _ = _ % _
          rw [h1, h]
        have h3 : (lrot.length - 1) * s ≡ qv [MOD lrot.length] :=
          Nat.ModEq.add_right_cancel' s h2
        have h4 : ((lrot.length - 1) * s) % lrot.length = qv := by
          have h5 : ((lrot.length - 1) * s) % lrot.length = qv % lrot.length := h3
          rw [Nat.mod_eq_of_lt hqv] at h5
          exact h5
        rw [h4, hqveq]
    rw [hstep1]
    have h6 : (qv + s) % lrot.length = 0 ↔ s % lrot.length = σ := by
      have := hσchar s
      rw [Nat.one_mul] at this
      exact this
    rw [h6, mod_char_two_range lrot.length σ s hσlt (by omega), hm]
  · -- u is a rotating team at position (qu + s) % m
    obtain ⟨qu, hqu, hqueq⟩ := getq u hu huf
    have hpu : ∀ s, (teamsAt lrot f s).getD ((qu + s) % lrot.length) 0 = u := by
      intro s
      rw [teamsAt_pos_of_lrot lrot f s qu hqu, hqueq]
    have hopp : ∀ s, s < 2 * (N - 1) →
        ((sched.getD s []).getD u placeholderGame).opponent =
          ((teamsAt lrot f s).getD (N - 1 - (qu + s) % lrot.length) 0 : Int) := by
      intro s hs
      have hc := hcell s hs ((qu + s) % lrot.length) (by
        have := Nat.mod_lt (qu + s) hmpos
        omega)
      rw [hpu s] at hc
      rw [hc]
      rfl
    by_cases hvf : v = f
    · -- u meets the anchor exactly when u is at position 0
      obtain ⟨σ, hσlt, hσchar⟩ := solveCong lrot.length 1 qu hmpos (Nat.coprime_one_left _)
      refine ⟨σ, by omega, ?_⟩
      intro s hs
      rw [hopp s hs, Nat.cast_inj]
      have hstep1 : ((teamsAt lrot f s).getD (N - 1 - (qu + s) % lrot.length) 0 = v) ↔
          ((qu + s) % lrot.length = 0) := by
        constructor
        · intro h
          have hplt : (qu + s) % lrot.length < lrot.length := Nat.mod_lt _ hmpos
          have hidx : N - 1 - (qu + s) % lrot.length = N - 1 :=
            posInj s _ _ (by omega) (by omega) ((h.trans hvf).trans (hlast s).symm)
          omega
        · intro h
          rw [h, Nat.sub_zero, hlast s, hvf]
      rw [hstep1]
      have h6 : (qu + s) % lrot.length = 0 ↔ s % lrot.length = σ := by
        have := hσchar s
        rw [Nat.one_mul] at this
        exact this
      rw [h6, mod_char_two_range lrot.length σ s hσlt (by omega), hm]
    · -- two rotating teams meet when their positions add to m
      obtain ⟨qv, hqv, hqveq⟩ := getq v hv hvf
      have hquv : qu ≠ qv := by
        intro h
        apply huv
        rw [← hqueq, ← hqveq, h]
      have hpv : ∀ s, (teamsAt lrot f s).getD ((qv + s) % lrot.length) 0 = v := by
        intro s
        rw [teamsAt_pos_of_lrot lrot f s qv hqv, hqveq]
      obtain ⟨σ, hσlt, hσchar⟩ := solveCong lrot.length 2 (qu + qv) hmpos
        (coprime_two_odd _ hmodd)
      refine ⟨σ, by omega, ?_⟩
      intro s hs
      rw [hopp s hs, Nat.cast_inj]
      have hpult : (qu + s) % lrot.length < lrot.length := Nat.mod_lt _ hmpos
      have hpvlt : (qv + s) % lrot.length < lrot.length := Nat.mod_lt _ hmpos
      have hne0 : ¬((qu + s) % lrot.length = 0 ∧ (qv + s) % lrot.length = 0) := by
        rintro ⟨h1, h2⟩
        have h3 : qu + s ≡ qv + s [MOD lrot.length] := by
          show _ % _ = _ % _
          rw [h1, h2]
        have h4 : qu ≡ qv [MOD lrot.length] := Nat.ModEq.add_right_cancel' s h3
        have h5 : qu = qv := by
          have h6 : qu % lrot.length = qv % lrot.length := h4
          rw [Nat.mod_eq_of_lt hqu, Nat.mod_eq_of_lt hqv] at h6
          exact h6
        exact hquv h5
      have hsum : ((qu + s) % lrot.length + (qv + s) % lrot.length) % lrot.length =
          (qu + qv + 2 * s) % lrot.length := by
        rw [← Nat.add_mod]
        congr 1
        ring
      have hstep1 : ((teamsAt lrot f s).getD (N - 1 - (qu + s) % lrot.length) 0 = v) ↔
          ((qu + s) % lrot.length + (qv + s) % lrot.length = lrot.length) := by
        constructor
        · intro h
          have hidx : N - 1 - (qu + s) % lrot.length = (qv + s) % lrot.length :=
            posInj s _ _ (by omega) (by omega) (by rw [hpv s]; exact h)
          omega
        · intro h
          have hidx : N - 1 - (qu + s) % lrot.length = (qv + s) % lrot.length := by omega
          rw [hidx, hpv s]
      rw [hstep1]
      have hstep2 : ((qu + s) % lrot.length + (qv + s) % lrot.length = lrot.length) ↔
          ((qu + qv + 2 * s) % lrot.length = 0) := by
        constructor
        · intro h
          rw [← hsum, h, Nat.mod_self]
        · intro h
          rw [← hsum] at h
          have hlt2 : (qu + s) % lrot.length + (qv + s) % lrot.length <
              2 * lrot.length := by omega
          have := (mod_eq_zero_iff_small lrot.length _ hmpos hlt2).mp h
          rcases this with h0 | hmm
          · exact absurd ⟨by omega, by omega⟩ hne0
          · exact hmm
      rw [hstep2, hσchar s, mod_char_two_range lrot.length σ s hσlt (by omega), hm]

theorem homeBit_flip (upward : Bool) (σ mm : Nat) (hodd : mm % 2 = 1) :
    (((σ + mm) % 2 == 0) == upward) = !((σ % 2 == 0) == upward) := by
  have h1 : (σ + mm) % 2 = 1 - σ % 2 := by omega
  rw [h1]
  rcases Nat.mod_two_eq_zero_or_one σ with h | h <;> rw [h] <;> cases upward <;> decide

theorem florian_home_flip (sched : List (List Game)) (lrot : List Nat) (f N : Nat)
    (upward : Bool) (hm : lrot.length = N - 1) (hN2 : 2 ≤ N) (hEven : N % 2 = 0)
    (hperm : List.Perm (lrot ++ [f]) (List.range N))
    (hcell : ∀ s, s < 2 * (N - 1) → ∀ p, p < N →
      (sched.getD s []).getD ((teamsAt lrot f s).getD p 0) placeholderGame =
        florianCell lrot f upward N s p)
    (u : Nat) (hu : u < N) (σ : Nat) (hσ : σ < N - 1) :
    ((sched.getD (σ + (N - 1)) []).getD u placeholderGame).home_game =
      !((sched.getD σ []).getD u placeholderGame).home_game := by
  have hmpos : 0 < lrot.length := by omega
  have hndfull : (lrot ++ [f]).Nodup := hperm.nodup_iff.mpr (List.nodup_range _)
  have hNin : ∀ x, x < N → x ∈ lrot ++ [f] := fun x hx =>
    hperm.mem_iff.mpr (List.mem_range.mpr hx)
  have hlast : ∀ s, (teamsAt lrot f s).getD (N - 1) 0 = f := by
    intro s
    rw [← hm]
    exact teamsAt_getD_last lrot f s
  have hhalf : ¬(N - 1 < N / 2) := by omega
  have hoddm : (N - 1) % 2 = 1 := by omega
  by_cases huf : u = f
  · have hc1 := hcell σ (by omega) (N - 1) (by omega)
    have hc2 := hcell (σ + (N - 1)) (by omega) (N - 1) (by omega)
    rw [hlast σ] at hc1
    rw [hlast (σ + (N - 1))] at hc2
    rw [huf, hc1, hc2]
    simp only [florianCell]
    rw [if_neg hhalf, if_neg hhalf, homeBit_flip upward σ (N - 1) hoddm, Bool.not_not]
  · have hmem : u ∈ lrot ++ [f] := hNin u hu
    have hin : u ∈ lrot := by
      rcases List.mem_append.mp hmem with hin | hin
      · exact hin
      · exact absurd (by simpa using hin) huf
    obtain ⟨i, hi, hieq⟩ := List.mem_iff_getElem.mp hin
    have hqueq : lrot.getD i 0 = u := by rw [getD_of_lt _ _ _ hi]; exact hieq
    have hidx : (i + (σ + (N - 1))) % lrot.length = (i + σ) % lrot.length := by
      rw [show i + (σ + (N - 1)) = i + σ + lrot.length by omega, Nat.add_mod_right]
    have hplt : (i + σ) % lrot.length < N := by
      have := Nat.mod_lt (i + σ) hmpos
      omega
    have hc1 := hcell σ (by omega) ((i + σ) % lrot.length) hplt
    rw [teamsAt_pos_of_lrot lrot f σ i hi, hqueq] at hc1
    have hc2 := hcell (σ + (N - 1)) (by omega) ((i + (σ + (N - 1))) % lrot.length)
      (by rw [hidx]; exact hplt)
    rw [teamsAt_pos_of_lrot lrot f (σ + (N - 1)) i hi, hqueq, hidx] at hc2
    rw [hc1, hc2]
    simp only [florianCell]
    rw [homeBit_flip upward σ (N - 1) hoddm]
    by_cases hp : (i + σ) % lrot.length < N / 2
    · rw [if_pos hp, if_pos hp]
    · rw [if_neg hp, if_neg hp, Bool.not_not]

theorem florian_counts (sched : List (List Game)) (lrot : List Nat) (f N : Nat)
    (upward : Bool) (hm : lrot.length = N - 1) (hN2 : 2 ≤ N) (hEven : N % 2 = 0)
    (hperm : List.Perm (lrot ++ [f]) (List.range N))
    (hcell : ∀ s, s < 2 * (N - 1) → ∀ p, p < N →
      (sched.getD s []).getD ((teamsAt lrot f s).getD p 0) placeholderGame =
        florianCell lrot f upward N s p)
    (u v : Nat) (hu : u < N) (hv : v < N) (huv : u ≠ v) :
    ((List.range (2 * (N - 1))).countP (fun s =>
        (((sched.getD s []).getD u placeholderGame).opponent == (v : Int)) &&
        ((sched.getD s []).getD u placeholderGame).home_game) = 1) ∧
    ((List.range (2 * (N - 1))).countP (fun s =>
        (((sched.getD s []).getD u placeholderGame).opponent == (v : Int)) &&
        !((sched.getD s []).getD u placeholderGame).home_game) = 1) := by
  obtain ⟨σ, hσ, hchar⟩ :=
    florian_meet_char sched lrot f N upward hm hN2 hEven hperm hcell u v hu hv huv
  have hflip := florian_home_flip sched lrot f N upward hm hN2 hEven hperm hcell u hu σ hσ
  by_cases hbv : ((sched.getD σ []).getD u placeholderGame).home_game = true
  · constructor
    · apply countP_range_eq_one _ (2 * (N - 1)) σ (by omega)
      intro s hs
      simp only [Bool.and_eq_true, beq_iff_eq]
      rw [hchar s hs]
      constructor
      · rintro ⟨h1 | h1, h2⟩
        · exact h1
        · subst h1
          rw [hflip, hbv] at h2
          simp at h2
      · intro h1
        subst h1
        exact ⟨Or.inl rfl, hbv⟩
    · apply countP_range_eq_one _ (2 * (N - 1)) (σ + (N - 1)) (by omega)
      intro s hs
      simp only [Bool.and_eq_true, beq_iff_eq, Bool.not_eq_true']
      rw [hchar s hs]
      constructor
      · rintro ⟨h1 | h1, h2⟩
        · subst h1
          rw [hbv] at h2
          exact absurd h2 (by decide)
        · exact h1
      · intro h1
        subst h1
        refine ⟨Or.inr rfl, ?_⟩
        rw [hflip, hbv]
        decide
  · have hbf : ((sched.getD σ []).getD u placeholderGame).home_game = false :=
      Bool.eq_false_iff.mpr hbv
    constructor
    · apply countP_range_eq_one _ (2 * (N - 1)) (σ + (N - 1)) (by omega)
      intro s hs
      simp only [Bool.and_eq_true, beq_iff_eq]
      rw [hchar s hs]
      constructor
      · rintro ⟨h1 | h1, h2⟩
        · subst h1
          rw [hbf] at h2
          exact absurd h2 (by decide)
        · exact h1
      · intro h1
        subst h1
        refine ⟨Or.inr rfl, ?_⟩
        rw [hflip, hbf]
        decide
    · apply countP_range_eq_one _ (2 * (N - 1)) σ (by omega)
      intro s hs
      simp only [Bool.and_eq_true, beq_iff_eq, Bool.not_eq_true']
      rw [hchar s hs]
      constructor
      · rintro ⟨h1 | h1, h2⟩
        · exact h1
        · subst h1
          rw [hflip, hbf] at h2
          simp at h2
      · intro h1
        subst h1
        exact ⟨Or.inl rfl, hbf⟩

theorem generate_florian_solution_sched (data : Rawdata) (fixed_team : Nat) (upward : Bool) :
    (generate_florian_solution data fixed_team upward).solution =
      florianSched (data.teams.map (fun team => usizeOfI32 team.id)) data.slots.length
        fixed_team upward := by
  unfold generate_florian_solution florianSched Solution.new
  simp [List.length_map]

theorem florianSched_master (ids : List Nat) (numSlots a : Nat) (upward : Bool)
    (hN2 : 2 ≤ ids.length) (hEven : ids.length % 2 = 0)
    (hperm : List.Perm ids (List.range ids.length)) (ha : a < ids.length)
    (hslots : 2 * (ids.length - 1) ≤ numSlots) :
    (florianSched ids numSlots a upward).length = numSlots ∧
    (∀ s, s < numSlots → 2 * (ids.length - 1) ≤ s →
      (florianSched ids numSlots a upward).getD s [] =
        List.replicate ids.length placeholderGame) ∧
    (∀ s, s < 2 * (ids.length - 1) →
      ((florianSched ids numSlots a upward).getD s []).length = ids.length) ∧
    (∀ s, s < 2 * (ids.length - 1) → ∀ p, p < ids.length →
      ((florianSched ids numSlots a upward).getD s []).getD
          ((teamsAt (ids.eraseIdx a) (ids.getD a 0) s).getD p 0) placeholderGame =
        florianCell (ids.eraseIdx a) (ids.getD a 0) upward ids.length s p) := by
  have h := florianFold_char ids numSlots a upward (ids.eraseIdx a) (ids.getD a 0)
    rfl rfl hN2 hEven hperm ha hslots (2 * (ids.length - 1)) (le_refl _)
  have hmv : moveToEnd ids a = ids.eraseIdx a ++ [ids.getD a 0] := rfl
  unfold florianSched
  rw [hmv]
  exact ⟨h.2.1, h.2.2.1, h.2.2.2.1, h.2.2.2.2⟩

theorem florian_valid_pairing (sched : List (List Game)) (lrot : List Nat) (f N : Nat)
    (upward : Bool) (hm : lrot.length = N - 1) (hN2 : 2 ≤ N) (hEven : N % 2 = 0)
    (hperm : List.Perm (lrot ++ [f]) (List.range N))
    (hcell : ∀ s, s < 2 * (N - 1) → ∀ p, p < N →
      (sched.getD s []).getD ((teamsAt lrot f s).getD p 0) placeholderGame =
        florianCell lrot f upward N s p)
    (s : Nat) (hs : s < 2 * (N - 1)) (t : Nat) (ht : t < N) :
    ∃ o, o < N ∧ o ≠ t ∧
      ((sched.getD s []).getD t placeholderGame).opponent = (o : Int) := by
  have htperm : List.Perm (teamsAt lrot f s) (List.range N) :=
    (teamsAt_perm lrot f s).trans hperm
  have htlen : (teamsAt lrot f s).length = N := by
    rw [teamsAt_length, hm]
    omega
  have htnd : (teamsAt lrot f s).Nodup := htperm.nodup_iff.mpr (List.nodup_range _)
  have htmem : ∀ x ∈ teamsAt lrot f s, x < N := fun x hx =>
    List.mem_range.mp (htperm.mem_iff.mp hx)
  have htin : t ∈ teamsAt lrot f s := htperm.mem_iff.mpr (List.mem_range.mpr ht)
  obtain ⟨p, hp, hpe⟩ := List.mem_iff_getElem.mp htin
  have hpN : p < N := by rw [htlen] at hp; exact hp
  have hpt : (teamsAt lrot f s).getD p 0 = t := by rw [getD_of_lt _ _ _ hp]; exact hpe
  refine ⟨(teamsAt lrot f s).getD (N - 1 - p) 0, ?_, ?_, ?_⟩
  · apply htmem
    rw [getD_of_lt _ _ _ (show N - 1 - p < (teamsAt lrot f s).length by omega)]
    exact List.getElem_mem _
  · intro h
    have hpp : N - 1 - p = p :=
      nodup_getD_inj _ htnd _ _ (by omega) (by rw [htlen]; exact hpN) (h.trans hpt.symm)
    omega
  · have hc := hcell s hs p hpN
    rw [hpt] at hc
    rw [hc]
    rfl

theorem florian_symmetry (sched : List (List Game)) (lrot : List Nat) (f N : Nat)
    (upward : Bool) (hm : lrot.length = N - 1) (hN2 : 2 ≤ N) (hEven : N % 2 = 0)
    (hperm : List.Perm (lrot ++ [f]) (List.range N))
    (hcell : ∀ s, s < 2 * (N - 1) → ∀ p, p < N →
      (sched.getD s []).getD ((teamsAt lrot f s).getD p 0) placeholderGame =
        florianCell lrot f upward N s p)
    (s : Nat) (hs : s < 2 * (N - 1)) (t : Nat) (ht : t < N) (o : Nat)
    (hopp : ((sched.getD s []).getD t placeholderGame).opponent = (o : Int)) :
    o < N ∧ ((sched.getD s []).getD o placeholderGame).opponent = (t : Int) ∧
      ((sched.getD s []).getD t placeholderGame).home_game ≠
        ((sched.getD s []).getD o placeholderGame).home_game := by
  have htperm : List.Perm (teamsAt lrot f s) (List.range N) :=
    (teamsAt_perm lrot f s).trans hperm
  have htlen : (teamsAt lrot f s).length = N := by
    rw [teamsAt_length, hm]
    omega
  have htmem : ∀ x ∈ teamsAt lrot f s, x < N := fun x hx =>
    List.mem_range.mp (htperm.mem_iff.mp hx)
  have htin : t ∈ teamsAt lrot f s := htperm.mem_iff.mpr (List.mem_range.mpr ht)
  obtain ⟨p, hp, hpe⟩ := List.mem_iff_getElem.mp htin
  have hpN : p < N := by rw [htlen] at hp; exact hp
  have hpt : (teamsAt lrot f s).getD p 0 = t := by rw [getD_of_lt _ _ _ hp]; exact hpe
  have hct := hcell s hs p hpN
  rw [hpt] at hct
  have hoeq : (teamsAt lrot f s).getD (N - 1 - p) 0 = o := by
    have h1 : ((sched.getD s []).getD t placeholderGame).opponent =
        ((teamsAt lrot f s).getD (N - 1 - p) 0 : Int) := by rw [hct]; rfl
    have h2 : ((teamsAt lrot f s).getD (N - 1 - p) 0 : Int) = (o : Int) :=
      h1.symm.trans hopp
    exact_mod_cast h2
  have hoN : o < N := by
    rw [← hoeq]
    apply htmem
    rw [getD_of_lt _ _ _ (show N - 1 - p < (teamsAt lrot f s).length by omega)]
    exact List.getElem_mem _
  have hco := hcell s hs (N - 1 - p) (by omega)
  rw [hoeq] at hco
  have hback : N - 1 - (N - 1 - p) = p := by omega
  refine ⟨hoN, ?_, ?_⟩
  · rw [hco]
    show ((teamsAt lrot f s).getD (N - 1 - (N - 1 - p)) 0 : Int) = (t : Int)
    rw [hback, hpt]
  · rw [hct, hco]
    show (if p < N / 2 then ((s % 2 == 0) == upward) else !((s % 2 == 0) == upward)) ≠
      (if N - 1 - p < N / 2 then ((s % 2 == 0) == upward)
        else !((s % 2 == 0) == upward))
    have hsplit : p < N / 2 ↔ ¬(N - 1 - p < N / 2) := by omega
    by_cases hph : p < N / 2
    · rw [if_pos hph, if_neg (hsplit.mp hph)]
      cases ((s % 2 == 0) == upward) <;> decide
    · rw [if_neg hph, if_pos (by omega)]
      cases ((s % 2 == 0) == upward) <;> decide

theorem countP_flatten {α : Type} (p : α → Bool) :
    ∀ L : List (List α), L.flatten.countP p = (L.map (fun l => l.countP p)).sum := by
  intro L
  induction L with
  | nil => rfl
  | cons l ls ih =>
    rw [List.flatten_cons, List.countP_append, List.map_cons, List.sum_cons, ih]

theorem countP_split {α : Type} (l : List α) (p q : α → Bool) :
    l.countP p = l.countP (fun x => p x && q x) + l.countP (fun x => p x && !q x) := by
  induction l with
  | nil => rfl
  | cons x xs ih =>
    simp only [List.countP_cons, ih]
    cases hp : p x <;> cases hq : q x <;> simp [hp, hq] <;> omega

theorem countP_eq_sum_ite {α : Type} (p : α → Bool) :
    ∀ l : List α, l.countP p = (l.map (fun x => if p x then 1 else 0)).sum := by
  intro l
  induction l with
  | nil => rfl
  | cons x xs ih =>
    rw [List.countP_cons, List.map_cons, List.sum_cons, ih]
    omega

theorem sum_map_add_nat (n : Nat) (f g : Nat → Nat) :
    ((List.range n).map (fun t => f t + g t)).sum =
      ((List.range n).map f).sum + ((List.range n).map g).sum := by
  induction n with
  | zero => rfl
  | succ k ih =>
    rw [List.range_succ]
    simp only [List.map_append, List.sum_append, List.map_cons, List.map_nil,
      List.sum_cons, List.sum_nil, add_zero, ih]
    omega

theorem sum_map_swap (m n : Nat) (c : Nat → Nat → Nat) :
    ((List.range m).map (fun s => ((List.range n).map (fun t => c s t)).sum)).sum =
      ((List.range n).map (fun t => ((List.range m).map (fun s => c s t)).sum)).sum := by
  induction m with
  | zero => simp
  | succ k ih =>
    rw [List.range_succ]
    simp only [List.map_append, List.sum_append, List.map_cons, List.map_nil,
      List.sum_cons, List.sum_nil, add_zero, ih]
    exact (sum_map_add_nat n _ _).symm

theorem sum_range_single (g : Nat → Nat) :
    ∀ (n A : Nat), A < n → (∀ t, t < n → t ≠ A → g t = 0) →
      ((List.range n).map g).sum = g A := by
  intro n
  induction n with
  | zero => intro A h _; omega
  | succ k ih =>
    intro A hA hz
    rw [List.range_succ]
    simp only [List.map_append, List.sum_append, List.map_cons, List.map_nil,
      List.sum_cons, List.sum_nil, add_zero]
    by_cases hAk : A = k
    · subst hAk
      have h0 : ((List.range A).map g).sum = 0 := by
        apply List.sum_eq_zero
        intro x hx
        obtain ⟨u, hu, rfl⟩ := List.mem_map.mp hx
        have hu' := List.mem_range.mp hu
        exact hz u (by omega) (by omega)
      rw [h0, Nat.zero_add]
    · have hAk' : A < k := by omega
      rw [ih A hAk' (fun u hu hua => hz u (by omega) hua),
        hz k (by omega) (fun h => hAk h.symm), Nat.add_zero]

theorem sum_range_two_support (n A B : Nat) (g : Nat → Nat) (hA : A < n) (hB : B < n)
    (hAB : A ≠ B) (hz : ∀ c, c < n → c ≠ A → c ≠ B → g c = 0) :
    ((List.range n).map g).sum = g A + g B := by
  have hpt : ∀ c ∈ List.range n,
      g c = (fun c => (if c = A then g A else 0) + (if c = B then g B else 0)) c := by
    intro c hc
    have hcn := List.mem_range.mp hc
    show g c = (if c = A then g A else 0) + (if c = B then g B else 0)
    by_cases h1 : c = A
    · subst h1
      rw [if_pos rfl, if_neg hAB, Nat.add_zero]
    · by_cases h2 : c = B
      · subst h2
        rw [if_neg h1, if_pos rfl, Nat.zero_add]
      · rw [if_neg h1, if_neg h2, hz c hcn h1 h2]
  rw [List.map_congr_left hpt, sum_map_add_nat,
    sum_range_single _ n A hA (by intro u _ hua; rw [if_neg hua]),
    sum_range_single _ n B hB (by intro u _ hub; rw [if_neg hub]),
    if_pos rfl, if_pos rfl]

theorem countP_range_swap (m n : Nat) (p : Nat → Nat → Bool) :
    ((List.range m).map (fun s => (List.range n).countP (fun t => p s t))).sum =
      ((List.range n).map (fun t => (List.range m).countP (fun s => p s t))).sum := by
  calc ((List.range m).map (fun s => (List.range n).countP (fun t => p s t))).sum
      = ((List.range m).map
          (fun s => ((List.range n).map (fun t => if p s t then 1 else 0)).sum)).sum := by
        congr 1
        apply List.map_congr_left
        intro s _
        exact countP_eq_sum_ite _ _
    _ = ((List.range n).map
          (fun t => ((List.range m).map (fun s => if p s t then 1 else 0)).sum)).sum :=
        sum_map_swap m n _
    _ = ((List.range n).map (fun t => (List.range m).countP (fun s => p s t))).sum := by
        congr 1
        apply List.map_congr_left
        intro t _
        exact (countP_eq_sum_ite _ _).symm

theorem rrKey_comm (a b : Nat) : rrKey a b = rrKey b a := by
  unfold rrKey
  rcases Nat.lt_trichotomy a b with h | h | h
  · rw [if_pos h, if_neg (by omega)]
  · subst h
    rw [if_neg (by omega)]
  · rw [if_neg (by omega), if_pos h]

theorem rrKey_cases (q x t o : Nat) (h : rrKey q x = rrKey t o) : q = t ∨ q = o := by
  unfold rrKey at h
  split_ifs at h <;> rw [Prod.mk.injEq] at h <;> omega

theorem rrKey_right_iff (t x o : Nat) (hxt : x ≠ t) (hot : o ≠ t) :
    (rrKey t x = rrKey t o) ↔ x = o := by
  constructor
  · intro h
    unfold rrKey at h
    split_ifs at h <;> rw [Prod.mk.injEq] at h <;> omega
  · rintro rfl
    rfl

theorem florian_meet_twice (sched : List (List Game)) (lrot : List Nat) (f N : Nat)
    (upward : Bool) (hm : lrot.length = N - 1) (hN2 : 2 ≤ N) (hEven : N % 2 = 0)
    (hperm : List.Perm (lrot ++ [f]) (List.range N))
    (hcell : ∀ s, s < 2 * (N - 1) → ∀ p, p < N →
      (sched.getD s []).getD ((teamsAt lrot f s).getD p 0) placeholderGame =
        florianCell lrot f upward N s p)
    (u v : Nat) (hu : u < N) (hv : v < N) (huv : u ≠ v) :
    (List.range (2 * (N - 1))).countP
      (fun s => (((sched.getD s []).getD u placeholderGame).opponent == (v : Int))) = 2 := by
  obtain ⟨h1, h2⟩ := florian_counts sched lrot f N upward hm hN2 hEven hperm hcell u v hu hv huv
  have hsplit := countP_split (List.range (2 * (N - 1)))
    (fun s => (((sched.getD s []).getD u placeholderGame).opponent == (v : Int)))
    (fun s => ((sched.getD s []).getD u placeholderGame).home_game)
  rw [hsplit, h1, h2]

theorem florian_roundrobin (sched : List (List Game)) (lrot : List Nat) (f N : Nat)
    (upward : Bool) (hm : lrot.length = N - 1) (hN2 : 2 ≤ N) (hEven : N % 2 = 0)
    (hN64 : N ≤ 2 ^ 64)
    (hperm : List.Perm (lrot ++ [f]) (List.range N))
    (hcell : ∀ s, s < 2 * (N - 1) → ∀ p, p < N →
      (sched.getD s []).getD ((teamsAt lrot f s).getD p 0) placeholderGame =
        florianCell lrot f upward N s p)
    (hlen : sched.length = 2 * (N - 1)) :
    ((rrEntries sched N).all (fun k => (rrEntries sched N).count k ≤ 4)) = true := by
  have hvp : ∀ s, s < 2 * (N - 1) → ∀ t, t < N →
      ∃ o, o < N ∧ o ≠ t ∧ ((sched.getD s []).getD t placeholderGame).opponent = (o : Int) :=
    fun s hs t ht =>
      florian_valid_pairing sched lrot f N upward hm hN2 hEven hperm hcell s hs t ht
  rw [List.all_eq_true]
  intro k hk
  rw [decide_eq_true_eq]
  unfold rrEntries at hk
  obtain ⟨row, hrowmem, hkrow⟩ := List.mem_flatten.mp hk
  obtain ⟨s, hsmem, rfl⟩ := List.mem_map.mp hrowmem
  have hs : s < 2 * (N - 1) := by rw [← hlen]; exact List.mem_range.mp hsmem
  unfold rrRowKeys at hkrow
  obtain ⟨t, htmem, hkey⟩ := List.mem_map.mp hkrow
  have ht : t < N := List.mem_range.mp htmem
  obtain ⟨o, ho, hot, hopp⟩ := hvp s hs t ht
  have hkey2 : k = rrKey t o := by
    rw [← hkey, hopp, usizeOfI32_ofNat o (by omega)]
  subst hkey2
  show (rrEntries sched N).countP (fun x => x == rrKey t o) ≤ 4
  have hcount1 : (rrEntries sched N).countP (fun x => x == rrKey t o) =
      ((List.range sched.length).map (fun q =>
        (List.range N).countP (fun u =>
          (rrKey u
            (usizeOfI32 ((sched.getD q []).getD u placeholderGame).opponent) ==
            rrKey t o)))).sum := by
    unfold rrEntries
    rw [countP_flatten, List.map_map]
    congr 1
    apply List.map_congr_left
    intro q _
    show (rrRowKeys sched N q).countP (fun x => x == rrKey t o) = _
    unfold rrRowKeys
    rw [List.countP_map]
    rfl
  rw [hcount1,
    countP_range_swap sched.length N (fun q u =>
      (rrKey u (usizeOfI32 ((sched.getD q []).getD u placeholderGame).opponent) ==
        rrKey t o))]
  have htwo := sum_range_two_support N t o
    (fun u => (List.range sched.length).countP (fun q =>
      (rrKey u (usizeOfI32 ((sched.getD q []).getD u placeholderGame).opponent) ==
        rrKey t o)))
    ht ho (Ne.symm hot)
    (by
      intro u _ hut huo
      apply List.countP_eq_zero.mpr
      intro q _ hq
      rcases rrKey_cases u _ t o (eq_of_beq hq) with h | h
      · exact hut h
      · exact huo h)
  have hgt : (List.range sched.length).countP (fun q =>
      (rrKey t (usizeOfI32 ((sched.getD q []).getD t placeholderGame).opponent) ==
        rrKey t o)) = 2 := by
    rw [hlen]
    have hpw : ∀ q ∈ List.range (2 * (N - 1)),
        (rrKey t (usizeOfI32 ((sched.getD q []).getD t placeholderGame).opponent) ==
          rrKey t o) =
        (((sched.getD q []).getD t placeholderGame).opponent == (o : Int)) := by
      intro q hqmem
      have hq : q < 2 * (N - 1) := List.mem_range.mp hqmem
      obtain ⟨w, hw, hwt, hwopp⟩ := hvp q hq t ht
      rw [hwopp, usizeOfI32_ofNat w (by omega)]
      rw [Bool.eq_iff_iff, beq_iff_eq, beq_iff_eq, rrKey_right_iff t w o hwt hot,
        Nat.cast_inj]
    rw [countP_ext _ _ _ hpw]
    exact florian_meet_twice sched lrot f N upward hm hN2 hEven hperm hcell t o ht ho
      (Ne.symm hot)
  have hgo : (List.range sched.length).countP (fun q =>
      (rrKey o (usizeOfI32 ((sched.getD q []).getD o placeholderGame).opponent) ==
        rrKey t o)) = 2 := by
    rw [hlen]
    have hpw : ∀ q ∈ List.range (2 * (N - 1)),
        (rrKey o (usizeOfI32 ((sched.getD q []).getD o placeholderGame).opponent) ==
          rrKey t o) =
        (((sched.getD q []).getD o placeholderGame).opponent == (t : Int)) := by
      intro q hqmem
      have hq : q < 2 * (N - 1) := List.mem_range.mp hqmem
      obtain ⟨w, hw, hwo, hwopp⟩ := hvp q hq o ho
      rw [hwopp, usizeOfI32_ofNat w (by omega)]
      rw [Bool.eq_iff_iff, beq_iff_eq, beq_iff_eq,
        show rrKey t o = rrKey o t from rrKey_comm t o,
        rrKey_right_iff o w t hwo (Ne.symm hot), Nat.cast_inj]
    rw [countP_ext _ _ _ hpw]
    exact florian_meet_twice sched lrot f N upward hm hN2 hEven hperm hcell o t ho ht hot
  rw [htwo]
  simp only []
  rw [hgt, hgo]

/-! ### The claims -/

/-- Claim C1: for every instance whose team list has even length `N ≥ 2`
and whose mapped team ids are exactly `0..N-1`, every anchor index in range
and either direction flag (given at least `2*(N-1)` slots), the schedule
built by `generate_florian_solution` has one row per slot, exactly the
first `2*(N-1)` of them filled (the rest stay all-placeholder), each
filled row assigns every team a game against a distinct valid opponent,
and every ordered pair of distinct teams meets exactly once at home and
once away across the `2*(N-1)` rounds. -/
theorem C1_florian_schedule_correct (data : Rawdata) (fixed_team : Nat) (upward : Bool)
    (hN2 : 2 ≤ data.teams.length) (hEven : data.teams.length % 2 = 0)
    (hids : List.Perm (data.teams.map (fun team => usizeOfI32 team.id))
      (List.range data.teams.length))
    (ha : fixed_team < data.teams.length)
    (hslots : 2 * (data.teams.length - 1) ≤ data.slots.length) :
    (generate_florian_solution data fixed_team upward).solution.length =
      data.slots.length ∧
    (∀ s, s < data.slots.length → 2 * (data.teams.length - 1) ≤ s →
      (generate_florian_solution data fixed_team upward).solution.getD s [] =
        List.replicate data.teams.length placeholderGame) ∧
    (∀ s, s < 2 * (data.teams.length - 1) →
      ((generate_florian_solution data fixed_team upward).solution.getD s []).length =
        data.teams.length) ∧
    (∀ s, s < 2 * (data.teams.length - 1) → ∀ t, t < data.teams.length →
      ∃ o, o < data.teams.length ∧ o ≠ t ∧
        (((generate_florian_solution data fixed_team upward).solution.getD s []).getD t
          placeholderGame).opponent = (o : Int)) ∧
    (∀ u v, u < data.teams.length → v < data.teams.length → u ≠ v →
      (List.range (2 * (data.teams.length - 1))).countP (fun s =>
        ((((generate_florian_solution data fixed_team upward).solution.getD s []).getD u
            placeholderGame).opponent == (v : Int)) &&
        (((generate_florian_solution data fixed_team upward).solution.getD s []).getD u
            placeholderGame).home_game) = 1 ∧
      (List.range (2 * (data.teams.length - 1))).countP (fun s =>
        ((((generate_florian_solution data fixed_team upward).solution.getD s []).getD u
            placeholderGame).opponent == (v : Int)) &&
        !(((generate_florian_solution data fixed_team upward).solution.getD s []).getD u
            placeholderGame).home_game) = 1) := by
  have hsched := generate_florian_solution_sched data fixed_team upward
  set ids := data.teams.map (fun team => usizeOfI32 team.id) with hidsdef
  have hlen : ids.length = data.teams.length := by
    rw [hidsdef]
    exact List.length_map _ _
  have hN2' : 2 ≤ ids.length := by omega
  have hEven' : ids.length % 2 = 0 := by omega
  have ha' : fixed_team < ids.length := by omega
  have hperm' : List.Perm ids (List.range ids.length) := by rw [hlen]; exact hids
  have hslots' : 2 * (ids.length - 1) ≤ data.slots.length := by omega
  obtain ⟨hL, hRep, hRow, hCell⟩ :=
    florianSched_master ids data.slots.length fixed_team upward hN2' hEven' hperm' ha' hslots'
  have hm : (ids.eraseIdx fixed_team).length = data.teams.length - 1 := by
    rw [List.length_eraseIdx, if_pos ha', hlen]
  have hpermlf : List.Perm (ids.eraseIdx fixed_team ++ [ids.getD fixed_team 0])
      (List.range data.teams.length) := by
    have h2 := (moveToEnd_perm ids fixed_team ha').trans hperm'
    rw [hlen] at h2
    exact h2
  rw [hlen] at hRep hRow hCell
  rw [hsched]
  refine ⟨hL, hRep, hRow, ?_, ?_⟩
  · intro s hs t ht
    exact florian_valid_pairing _ _ _ _ upward hm hN2 hEven hpermlf hCell s hs t ht
  · intro u v hu hv huv
    exact florian_counts _ _ _ _ upward hm hN2 hEven hpermlf hCell u v hu hv huv

theorem C1_florian_schedule_correct_witness :
    (2 ≤ (sampleData 2 2).teams.length ∧
      (sampleData 2 2).teams.length % 2 = 0 ∧
      List.Perm ((sampleData 2 2).teams.map (fun team => usizeOfI32 team.id))
        (List.range (sampleData 2 2).teams.length) ∧
      0 < (sampleData 2 2).teams.length ∧
      2 * ((sampleData 2 2).teams.length - 1) ≤ (sampleData 2 2).slots.length) ∧
    ((generate_florian_solution (sampleData 2 2) 0 true).solution.length =
      (sampleData 2 2).slots.length ∧
    (∀ s, s < (sampleData 2 2).slots.length →
        2 * ((sampleData 2 2).teams.length - 1) ≤ s →
      (generate_florian_solution (sampleData 2 2) 0 true).solution.getD s [] =
        List.replicate (sampleData 2 2).teams.length placeholderGame) ∧
    (∀ s, s < 2 * ((sampleData 2 2).teams.length - 1) →
      ((generate_florian_solution (sampleData 2 2) 0 true).solution.getD s []).length =
        (sampleData 2 2).teams.length) ∧
    (∀ s, s < 2 * ((sampleData 2 2).teams.length - 1) →
        ∀ t, t < (sampleData 2 2).teams.length →
      ∃ o, o < (sampleData 2 2).teams.length ∧ o ≠ t ∧
        (((generate_florian_solution (sampleData 2 2) 0 true).solution.getD s []).getD t
          placeholderGame).opponent = (o : Int)) ∧
    (∀ u v, u < (sampleData 2 2).teams.length → v < (sampleData 2 2).teams.length →
        u ≠ v →
      (List.range (2 * ((sampleData 2 2).teams.length - 1))).countP (fun s =>
        ((((generate_florian_solution (sampleData 2 2) 0 true).solution.getD s []).getD u
            placeholderGame).opponent == (v : Int)) &&
        (((generate_florian_solution (sampleData 2 2) 0 true).solution.getD s []).getD u
            placeholderGame).home_game) = 1 ∧
      (List.range (2 * ((sampleData 2 2).teams.length - 1))).countP (fun s =>
        ((((generate_florian_solution (sampleData 2 2) 0 true).solution.getD s []).getD u
            placeholderGame).opponent == (v : Int)) &&
        !(((generate_florian_solution (sampleData 2 2) 0 true).solution.getD s []).getD u
            placeholderGame).home_game) = 1)) :=
  ⟨⟨by decide, by decide, by decide, by decide, by decide⟩,
    C1_florian_schedule_correct (sampleData 2 2) 0 true (by decide) (by decide)
      (by decide) (by decide) (by decide)⟩

/-- Claim C2: for every schedule produced by `generate_florian_solution`
under the C1 preconditions, for every slot and every valid team `t`, if
the cell of `t` lists a (natural) opponent `o`, then the cell of `o` in the
same slot lists `t` back, and exactly one of the two cells is the home
side.  In unfilled slots every cell is the placeholder, whose opponent
`-1` is no natural id, so the statement holds for all slots. -/
theorem C2_florian_symmetry_invariant (data : Rawdata) (fixed_team : Nat) (upward : Bool)
    (hN2 : 2 ≤ data.teams.length) (hEven : data.teams.length % 2 = 0)
    (hids : List.Perm (data.teams.map (fun team => usizeOfI32 team.id))
      (List.range data.teams.length))
    (ha : fixed_team < data.teams.length)
    (hslots : 2 * (data.teams.length - 1) ≤ data.slots.length) :
    ∀ (s t o : Nat), t < data.teams.length →
      (((generate_florian_solution data fixed_team upward).solution.getD s []).getD t
        placeholderGame).opponent = (o : Int) →
      ((((generate_florian_solution data fixed_team upward).solution.getD s []).getD o
        placeholderGame).opponent = (t : Int) ∧
      (((generate_florian_solution data fixed_team upward).solution.getD s []).getD t
        placeholderGame).home_game ≠
        (((generate_florian_solution data fixed_team upward).solution.getD s []).getD o
          placeholderGame).home_game) := by
  have hsched := generate_florian_solution_sched data fixed_team upward
  set ids := data.teams.map (fun team => usizeOfI32 team.id) with hidsdef
  have hlen : ids.length = data.teams.length := by
    rw [hidsdef]
    exact List.length_map _ _
  have hN2' : 2 ≤ ids.length := by omega
  have hEven' : ids.length % 2 = 0 := by omega
  have ha' : fixed_team < ids.length := by omega
  have hperm' : List.Perm ids (List.range ids.length) := by rw [hlen]; exact hids
  have hslots' : 2 * (ids.length - 1) ≤ data.slots.length := by omega
  obtain ⟨hL, hRep, hRow, hCell⟩ :=
    florianSched_master ids data.slots.length fixed_team upward hN2' hEven' hperm' ha' hslots'
  have hm : (ids.eraseIdx fixed_team).length = data.teams.length - 1 := by
    rw [List.length_eraseIdx, if_pos ha', hlen]
  have hpermlf : List.Perm (ids.eraseIdx fixed_team ++ [ids.getD fixed_team 0])
      (List.range data.teams.length) := by
    have h2 := (moveToEnd_perm ids fixed_team ha').trans hperm'
    rw [hlen] at h2
    exact h2
  rw [hlen] at hRep hRow hCell
  rw [hsched]
  intro s t o ht hopp
  by_cases hs : s < 2 * (data.teams.length - 1)
  · obtain ⟨-, h1, h2⟩ :=
      florian_symmetry _ _ _ _ upward hm hN2 hEven hpermlf hCell s hs t ht o hopp
    exact ⟨h1, h2⟩
  · exfalso
    have hph : ((florianSched ids data.slots.length fixed_team upward).getD s []).getD t
        placeholderGame = placeholderGame := by
      by_cases hslen : s < data.slots.length
      · rw [hRep s hslen (by omega)]
        exact getD_replicate _ _ _ _ ht
      · have hrow0 : (florianSched ids data.slots.length fixed_team upward).getD s [] =
            [] := by
          apply List.getD_eq_default
          rw [hL]
          omega
        rw [hrow0]
        rfl
    rw [hph] at hopp
    have hnn : (0 : Int) ≤ (o : Int) := Int.natCast_nonneg o
    have hm1 : placeholderGame.opponent = (-1 : Int) := rfl
    rw [hm1] at hopp
    omega

theorem C2_florian_symmetry_invariant_witness :
    (2 ≤ (sampleData 2 2).teams.length ∧
      2 * ((sampleData 2 2).teams.length - 1) ≤ (sampleData 2 2).slots.length) ∧
    (∀ (s t o : Nat), t < (sampleData 2 2).teams.length →
      (((generate_florian_solution (sampleData 2 2) 0 true).solution.getD s []).getD t
        placeholderGame).opponent = (o : Int) →
      ((((generate_florian_solution (sampleData 2 2) 0 true).solution.getD s []).getD o
        placeholderGame).opponent = (t : Int) ∧
      (((generate_florian_solution (sampleData 2 2) 0 true).solution.getD s []).getD t
        placeholderGame).home_game ≠
        (((generate_florian_solution (sampleData 2 2) 0 true).solution.getD s []).getD o
          placeholderGame).home_game)) :=
  ⟨⟨by decide, by decide⟩,
    C2_florian_symmetry_invariant (sampleData 2 2) 0 true (by decide) (by decide)
      (by decide) (by decide) (by decide)⟩

/-- Claim C6 (corrected): the round-robin check counts one hash-map entry
per slot and per team (so two entries per meeting of a pair in a symmetric
schedule) and clears the flag exactly when some unordered key occurs more
than 4 times.  On a schedule built by `generate_florian_solution` on an
instance with exactly `2*(N-1)` slots, every key occurs exactly 4 times
(each ordered pair meets twice), so `round_robin_respect` is `true`. -/
theorem C6_roundrobin_flag (data : Rawdata) (fixed_team : Nat) (upward : Bool)
    (hN2 : 2 ≤ data.teams.length) (hEven : data.teams.length % 2 = 0)
    (hN64 : data.teams.length ≤ 2 ^ 64)
    (hids : List.Perm (data.teams.map (fun team => usizeOfI32 team.id))
      (List.range data.teams.length))
    (ha : fixed_team < data.teams.length)
    (hslotseq : data.slots.length = 2 * (data.teams.length - 1)) :
    roundRobinRespect (generate_florian_solution data fixed_team upward).solution
      data.teams.length = some true := by
  have hsched := generate_florian_solution_sched data fixed_team upward
  set ids := data.teams.map (fun team => usizeOfI32 team.id) with hidsdef
  have hlen : ids.length = data.teams.length := by
    rw [hidsdef]
    exact List.length_map _ _
  have hN2' : 2 ≤ ids.length := by omega
  have hEven' : ids.length % 2 = 0 := by omega
  have ha' : fixed_team < ids.length := by omega
  have hperm' : List.Perm ids (List.range ids.length) := by rw [hlen]; exact hids
  have hslots' : 2 * (ids.length - 1) ≤ data.slots.length := by omega
  obtain ⟨hL, hRep, hRow, hCell⟩ :=
    florianSched_master ids data.slots.length fixed_team upward hN2' hEven' hperm' ha' hslots'
  have hm : (ids.eraseIdx fixed_team).length = data.teams.length - 1 := by
    rw [List.length_eraseIdx, if_pos ha', hlen]
  have hpermlf : List.Perm (ids.eraseIdx fixed_team ++ [ids.getD fixed_team 0])
      (List.range data.teams.length) := by
    have h2 := (moveToEnd_perm ids fixed_team ha').trans hperm'
    rw [hlen] at h2
    exact h2
  rw [hlen] at hRep hRow hCell
  rw [hsched]
  have hrows : ∀ row ∈ florianSched ids data.slots.length fixed_team upward,
      row.length = data.teams.length := by
    intro row hrow
    obtain ⟨i, hi, hieq⟩ := List.mem_iff_getElem.mp hrow
    have hi2 : i < 2 * (data.teams.length - 1) := by
      rw [hL] at hi
      omega
    have hlenrow := hRow i hi2
    rw [getD_of_lt _ _ _ hi, hieq] at hlenrow
    exact hlenrow
  rw [roundRobinRespect_eq _ _ hrows]
  exact congrArg some
    (florian_roundrobin _ _ _ _ upward hm hN2 hEven hN64 hpermlf hCell
      (by rw [hL, hslotseq]))

theorem C6_roundrobin_flag_witness :
    ((sampleData 2 2).teams.length ≤ 2 ^ 64 ∧
      (sampleData 2 2).slots.length = 2 * ((sampleData 2 2).teams.length - 1)) ∧
    roundRobinRespect (generate_florian_solution (sampleData 2 2) 0 true).solution
      (sampleData 2 2).teams.length = some true :=
  ⟨⟨by decide, by decide⟩,
    C6_roundrobin_flag (sampleData 2 2) 0 true (by decide) (by decide) (by decide)
      (by decide) (by decide) (by decide)⟩

/-- Counterexample to the original wording of C6: in this symmetric
schedule the single team pair meets 3 times — not more than 4 — yet the
flag is `false`, because the hash map records two entries per meeting
(6 > 4). -/
theorem C6_counterexample :
    roundRobinRespect
        [[⟨true, 1⟩, ⟨false, 0⟩], [⟨false, 1⟩, ⟨true, 0⟩],
          [⟨true, 1⟩, ⟨false, 0⟩]] 2 = some false ∧
    (∀ a, a < 2 → ∀ b, b < 2 →
      pairMeetCount
        [[⟨true, 1⟩, ⟨false, 0⟩], [⟨false, 1⟩, ⟨true, 0⟩],
          [⟨true, 1⟩, ⟨false, 0⟩]] a b ≤ 4) := by decide

/-- Claim C3: for every distance matrix and every (nonempty) schedule,
`evaluate_objective` returns the travel-simulation total: each team starts
at its own venue, moves to its own venue on a home game and to the
opponent's on an away game, paying the matrix distance of every move, and
the result is the sum over all teams and slots. -/
theorem C3_evaluate_objective_travel_simulation (matrix : List (List Int))
    (solution_matrix : Solution) (hne : solution_matrix.solution ≠ []) :
    evaluate_objective matrix solution_matrix =
      travelSimulationSpec matrix solution_matrix.solution :=
  evaluate_objective_eq_spec matrix solution_matrix

theorem C3_evaluate_objective_travel_simulation_witness :
    ((⟨0, [[⟨true, 1⟩, ⟨false, 0⟩]]⟩ : Solution).solution ≠ []) ∧
    evaluate_objective [[0, 3], [2, 0]] ⟨0, [[⟨true, 1⟩, ⟨false, 0⟩]]⟩ =
      travelSimulationSpec [[0, 3], [2, 0]]
        (⟨0, [[⟨true, 1⟩, ⟨false, 0⟩]]⟩ : Solution).solution :=
  ⟨by decide, C3_evaluate_objective_travel_simulation [[0, 3], [2, 0]]
    ⟨0, [[⟨true, 1⟩, ⟨false, 0⟩]]⟩ (by decide)⟩

/-- Claim C4 (corrected): provided every capacity constraint has
`0 ≤ c_intp`, `c_intp` within `i32` range and at most the slot count, and
nonnegative in-range `c_min`, `c_max`, the capacity part of
`check_constraints` counts exactly one violation per constraint, team and
sliding window of `c_intp` consecutive slots fully inside the schedule
whose mode count falls outside `[c_min, c_max]`.  (Without the bound on
`c_intp` the window loop's `num_slots - c_intp as usize` underflows.) -/
theorem C4_capacity_window_count (constraints : List CapacityConstraints)
    (sol : List (List Game)) (num_teams : Nat)
    (hrows : ∀ row ∈ sol, row.length = num_teams)
    (hb : ∀ c ∈ constraints,
      0 ≤ c.c_intp ∧ c.c_intp < 2 ^ 31 ∧ c.c_intp.toNat ≤ sol.length ∧
      0 ≤ c.c_min ∧ c.c_min < 2 ^ 31 ∧ 0 ≤ c.c_max ∧ c.c_max < 2 ^ 31) :
    capacityViolations constraints sol num_teams =
      some (capacitySpecCount constraints sol num_teams) := by
  have hintp : ∀ c ∈ constraints, usizeOfI32 c.c_intp ≤ sol.length := by
    intro c hc
    obtain ⟨h0, h1, h2, -⟩ := hb c hc
    rw [usizeOfI32_eq_toNat _ h0 (by omega)]
    exact h2
  rw [capacityViolations_eq_code constraints sol num_teams hrows hintp,
    capCode_eq_spec constraints sol num_teams hb]

/-- Counterexample to the original wording of C4: with `c_intp = 2` on a
one-slot schedule there is no window fully inside the schedule, so counting
as claimed yields 0 violations, but the code's `num_slots - c_intp as usize`
underflows (a panic, modelled `none`), so the checker does not produce the
claimed count. -/
theorem C4_counterexample :
    capacityViolations [⟨2, 1, 0, 'A', "", 0, 0, 0, ""⟩]
        [[⟨true, 1⟩, ⟨false, 0⟩]] 2 ≠
      some (capacitySpecCount [⟨2, 1, 0, 'A', "", 0, 0, 0, ""⟩]
        [[⟨true, 1⟩, ⟨false, 0⟩]] 2) := by decide

theorem C4_capacity_window_count_witness :
    (∀ row ∈ ([[⟨true, 1⟩, ⟨false, 0⟩]] : List (List Game)), row.length = 2) ∧
    capacityViolations [⟨1, 1, 0, 'A', "", 0, 0, 0, ""⟩] [[⟨true, 1⟩, ⟨false, 0⟩]] 2 =
      some (capacitySpecCount [⟨1, 1, 0, 'A', "", 0, 0, 0, ""⟩]
        [[⟨true, 1⟩, ⟨false, 0⟩]] 2) :=
  ⟨by decide, C4_capacity_window_count [⟨1, 1, 0, 'A', "", 0, 0, 0, ""⟩]
    [[⟨true, 1⟩, ⟨false, 0⟩]] 2 (by decide) (by decide)⟩

/-- Claim C5 (corrected): provided every separation constraint has
nonnegative in-range `c_min` and `c_max`, and every listed opponent is a
valid team index, the separation part of `check_constraints` tracks the
last slot each team met each opponent and counts one violation per repeated
meeting whose gap is `<= c_min` or `> c_max`; a first meeting is never
counted.  (With a negative bound the usize cast turns the gap test around.) -/
theorem C5_separation_gap_count (constraints : List SeparationConstraints)
    (sol : List (List Game)) (num_teams : Nat)
    (hrows : ∀ row ∈ sol, row.length = num_teams)
    (hvalid : ∀ slot < sol.length, ∀ team < num_teams,
      usizeOfI32 ((sol.getD slot []).getD team placeholderGame).opponent < num_teams)
    (hb : ∀ c ∈ constraints,
      0 ≤ c.c_min ∧ c.c_min < 2 ^ 31 ∧ 0 ≤ c.c_max ∧ c.c_max < 2 ^ 31) :
    separationViolations constraints sol num_teams =
      some (separationSpecCount constraints sol num_teams) := by
  rw [separationViolations_eq_code constraints sol num_teams hrows hvalid,
    sepCode_eq_spec constraints sol num_teams hb]

/-- Counterexample to the original wording of C5: with `c_min = -1` a
repeated meeting at gap 1 satisfies neither `gap <= c_min` nor
`gap > c_max` over the integers, so the claimed counting yields 0, but the
code casts `c_min as usize` to `2^64 - 1` and counts a violation for every
repeated meeting. -/
theorem C5_counterexample :
    separationViolations [⟨10, -1, 0, 0, ""⟩]
        [[⟨true, 1⟩, ⟨false, 0⟩], [⟨false, 1⟩, ⟨true, 0⟩]] 2 ≠
      some (separationSpecCount [⟨10, -1, 0, 0, ""⟩]
        [[⟨true, 1⟩, ⟨false, 0⟩], [⟨false, 1⟩, ⟨true, 0⟩]] 2) := by decide

theorem C5_separation_gap_count_witness :
    (∀ row ∈ ([[⟨true, 1⟩, ⟨false, 0⟩], [⟨false, 1⟩, ⟨true, 0⟩]] : List (List Game)),
      row.length = 2) ∧
    separationViolations [⟨10, 0, 0, 0, ""⟩]
        [[⟨true, 1⟩, ⟨false, 0⟩], [⟨false, 1⟩, ⟨true, 0⟩]] 2 =
      some (separationSpecCount [⟨10, 0, 0, 0, ""⟩]
        [[⟨true, 1⟩, ⟨false, 0⟩], [⟨false, 1⟩, ⟨true, 0⟩]] 2) :=
  ⟨by decide, C5_separation_gap_count [⟨10, 0, 0, 0, ""⟩]
    [[⟨true, 1⟩, ⟨false, 0⟩], [⟨false, 1⟩, ⟨true, 0⟩]] 2
    (by decide) (by decide) (by decide)⟩

/-- Claim C7 (corrected): the capacity mode test maps `'A'` to home games,
`'H'` to away games and any other character to no game; with any other mode
every window count is 0, and such a window is a violation precisely when
the usize cast of `c_min` is positive — which for nonnegative in-range
`c_min` means `c_min > 0`, but also fires for negative `c_min`. -/
theorem C7_capacity_mode_semantics :
    (∀ g : Game, modeMatches 'A' g = g.home_game) ∧
    (∀ g : Game, modeMatches 'H' g = !g.home_game) ∧
    (∀ (mode : Char) (g : Game), mode ≠ 'A' → mode ≠ 'H' → modeMatches mode g = false) ∧
    (∀ (sol : List (List Game)) (team : Nat) (mode : Char) (start len : Nat),
      mode ≠ 'A' → mode ≠ 'H' → windowCountSpec sol team mode start len = 0) ∧
    (∀ (c : CapacityConstraints) (sol : List (List Game)) (team start : Nat),
      c.c_mode1 ≠ 'A' → c.c_mode1 ≠ 'H' →
      (capWindowViolCode c sol team start = true ↔ 0 < usizeOfI32 c.c_min)) := by
  have h3 : ∀ (mode : Char) (g : Game), mode ≠ 'A' → mode ≠ 'H' →
      modeMatches mode g = false := by
    intro mode g h1 h2
    unfold modeMatches
    split <;> simp_all
  have h4 : ∀ (sol : List (List Game)) (team : Nat) (mode : Char) (start len : Nat),
      mode ≠ 'A' → mode ≠ 'H' → windowCountSpec sol team mode start len = 0 := by
    intro sol team mode start len h1 h2
    unfold windowCountSpec
    apply List.countP_eq_zero.mpr
    intro j _ hj
    rw [h3 mode _ h1 h2] at hj
    exact absurd hj (by decide)
  refine ⟨fun g => rfl, fun g => rfl, h3, h4, ?_⟩
  intro c sol team start h1 h2
  unfold capWindowViolCode
  rw [h4 sol team c.c_mode1 start (usizeOfI32 c.c_intp) h1 h2, decide_eq_true_eq]
  omega

/-- Counterexample to the original wording of C7: with the unknown mode
`'X'` and `c_min = -1 ≤ 0` the claim predicts no violation, but the usize
cast of `c_min` is `2^64 - 1 > 0`, so the code flags the window. -/
theorem C7_counterexample :
    capWindowViolCode ⟨1, 5, -1, 'X', "", 0, 0, 0, ""⟩
        [[⟨true, 1⟩, ⟨false, 0⟩]] 0 0 = true ∧
      ¬((-1 : Int) > 0) := by decide

theorem C7_capacity_mode_semantics_witness :
    ('X' ≠ 'A' ∧ 'X' ≠ 'H') ∧
    (capWindowViolCode ⟨1, 5, -1, 'X', "", 0, 0, 0, ""⟩
        [[⟨true, 1⟩, ⟨false, 0⟩]] 0 0 = true ↔
      0 < usizeOfI32 (⟨1, 5, -1, 'X', "", 0, 0, 0, ""⟩ : CapacityConstraints).c_min) :=
  ⟨⟨by decide, by decide⟩,
    C7_capacity_mode_semantics.2.2.2.2 ⟨1, 5, -1, 'X', "", 0, 0, 0, ""⟩
      [[⟨true, 1⟩, ⟨false, 0⟩]] 0 0 (by decide) (by decide)⟩

/-- Claim C8 (corrected): on a well-formed schedule — at least one slot,
uniform row length, every listed opponent a valid team index — and provided
additionally every capacity constraint's `c_intp` (as usize) is at most the
slot count, `check_constraints` totally computes its
(capacity, separation, round-robin) triple.  (Without the `c_intp` bound
the `num_slots - c_intp as usize` subtraction underflows and panics even on
a well-formed schedule.) -/
theorem C8_check_constraints_total (data : Rawdata) (solution_matrix : Solution)
    (hne : solution_matrix.solution ≠ [])
    (hrows : ∀ row ∈ solution_matrix.solution,
      row.length = (solution_matrix.solution.getD 0 []).length)
    (hvalid : ∀ slot < solution_matrix.solution.length,
      ∀ team < (solution_matrix.solution.getD 0 []).length,
      usizeOfI32
          ((solution_matrix.solution.getD slot []).getD team placeholderGame).opponent <
        (solution_matrix.solution.getD 0 []).length)
    (hintp : ∀ c ∈ data.capacity_constraints,
      usizeOfI32 c.c_intp ≤ solution_matrix.solution.length) :
    ∃ res, check_constraints data solution_matrix = some res := by
  have hpos : 0 < solution_matrix.solution.length := List.length_pos.mpr hne
  have hget0 : solution_matrix.solution[0]? =
      some (solution_matrix.solution.getD 0 []) := by
    rw [List.getElem?_eq_getElem hpos, getD_of_lt _ _ _ hpos]
  refine ⟨(capCodeVal data.capacity_constraints solution_matrix.solution
      (solution_matrix.solution.getD 0 []).length,
    sepCodeVal data.separation_constraints solution_matrix.solution
      (solution_matrix.solution.getD 0 []).length,
    (rrEntries solution_matrix.solution
        (solution_matrix.solution.getD 0 []).length).all (fun k =>
      (rrEntries solution_matrix.solution
          (solution_matrix.solution.getD 0 []).length).count k ≤ 4)), ?_⟩
  simp only [check_constraints, hget0, optBind_some]
  rw [capacityViolations_eq_code _ _ _ hrows hintp]
  simp only [optBind_some]
  rw [separationViolations_eq_code _ _ _ hrows hvalid]
  simp only [optBind_some]
  rw [roundRobinRespect_eq _ _ hrows]
  simp only [optBind_some]
  rfl

/-- Counterexample to the original wording of C8: a well-formed one-slot,
one-team schedule (uniform rows, valid opponent index) still makes
`check_constraints` panic (`none`) when a capacity constraint has
`c_intp = 5 >` the slot count, so well-formedness of the schedule alone
does not prevent failure. -/
theorem C8_counterexample :
    check_constraints
        ⟨"", [teamOfId 0], [slotOfId 0], [], [⟨5, 1, 0, 'A', "", 0, 0, 0, ""⟩], []⟩
        ⟨0, [[⟨true, 0⟩]]⟩ = none ∧
    (([[⟨true, 0⟩]] : List (List Game)) ≠ []) ∧
    (∀ row ∈ ([[⟨true, 0⟩]] : List (List Game)), row.length = 1) ∧
    (∀ slot < 1, ∀ team < 1,
      usizeOfI32 ((([[⟨true, 0⟩]] : List (List Game)).getD slot []).getD team
        placeholderGame).opponent < 1) := by decide

theorem C8_check_constraints_total_witness :
    ((⟨0, [[⟨true, 0⟩]]⟩ : Solution).solution ≠ []) ∧
    (∃ res, check_constraints (sampleData 1 1) ⟨0, [[⟨true, 0⟩]]⟩ = some res) :=
  ⟨by decide, C8_check_constraints_total (sampleData 1 1) ⟨0, [[⟨true, 0⟩]]⟩
    (by decide) (by decide) (by decide) (by decide)⟩

/-- Claim C9 (corrected): `evaluate_objective` is deterministic, and on a
schedule in which every team plays every game at home the total is 0
provided the distance matrix has a zero diagonal (each team's distance to
itself is 0); with a nonzero diagonal entry the all-home total is the sum
of diagonal entries, not 0. -/
theorem C9_objective_deterministic_all_home_zero (matrix : List (List Int))
    (sol : Solution)
    (hhome : ∀ row ∈ sol.solution, ∀ g ∈ row, g.home_game = true)
    (hwide : ∀ row ∈ sol.solution, (sol.solution.getD 0 []).length ≤ row.length)
    (hdiag : ∀ t, t < (sol.solution.getD 0 []).length →
      (matrix.getD t []).getD t 0 = 0) :
    evaluate_objective matrix sol = evaluate_objective matrix sol ∧
      evaluate_objective matrix sol = 0 := by
  refine ⟨rfl, ?_⟩
  rw [evaluate_objective_eq_spec]
  unfold travelSimulationSpec
  apply List.sum_eq_zero
  intro x hx
  obtain ⟨t, htmem, rfl⟩ := List.mem_map.mp hx
  have ht : t < (sol.solution.getD 0 []).length := List.mem_range.mp htmem
  rw [teamItinerary_all_home sol.solution t
    (fun row hrow => Nat.lt_of_lt_of_le ht (hwide row hrow)) hhome]
  exact pathCost_diag_zero matrix t (hdiag t ht) _

/-- Counterexample to the original wording of C9: an all-home one-team
schedule evaluated against the matrix `[[5]]` (nonzero diagonal) totals 5,
not 0. -/
theorem C9_counterexample :
    (∀ row ∈ (⟨0, [[⟨true, 0⟩]]⟩ : Solution).solution, ∀ g ∈ row,
      g.home_game = true) ∧
    evaluate_objective [[5]] ⟨0, [[⟨true, 0⟩]]⟩ ≠ 0 := by decide

theorem C9_objective_deterministic_all_home_zero_witness :
    (∀ row ∈ (⟨0, [[⟨true, 0⟩]]⟩ : Solution).solution, ∀ g ∈ row,
      g.home_game = true) ∧
    evaluate_objective [[0]] ⟨0, [[⟨true, 0⟩]]⟩ = evaluate_objective [[0]] ⟨0, [[⟨true, 0⟩]]⟩ ∧
    evaluate_objective [[0]] ⟨0, [[⟨true, 0⟩]]⟩ = 0 :=
  ⟨by decide, C9_objective_deterministic_all_home_zero [[0]] ⟨0, [[⟨true, 0⟩]]⟩
    (by decide) (by decide) (by decide)⟩

/-- Claim C10: `generate_random_permutations` performs no validation of the
requested count against `team_count!`; with two teams and any target
greater than 2, the retry loop never terminates (`none` for every fuel and
every shuffle oracle), instead of the request being rejected as a caller
error as the specification demands. -/
theorem C10_sampler_never_validates (data : Rawdata) (number_permutations : Int)
    (shuffles : Nat → List Int) (fuel : Nat)
    (hshuf : ∀ n, List.Perm (shuffles n) [0, 1])
    (htarget : 2 < usizeOfI32 number_permutations) :
    generate_random_permutations data number_permutations shuffles fuel = none := by
  unfold generate_random_permutations
  exact permutationLoop_none (usizeOfI32 number_permutations) shuffles [[0, 1], [1, 0]]
    (fun n => by rcases perm_of_pair (shuffles n) (hshuf n) with h | h <;> rw [h] <;> simp)
    (by simpa using htarget) fuel 0 [] List.nodup_nil (by simp)

theorem C10_sampler_never_validates_witness :
    (∀ n : Nat, List.Perm ((fun _ : Nat => ([0, 1] : List Int)) n) [0, 1]) ∧
    2 < usizeOfI32 3 ∧
    generate_random_permutations (sampleData 2 2) 3 (fun _ => [0, 1]) 5 = none :=
  ⟨fun _ => List.Perm.refl _, by decide,
    C10_sampler_never_validates (sampleData 2 2) 3 (fun _ => [0, 1]) 5
      (fun _ => List.Perm.refl _) (by decide)⟩

end TTP
